import Mathlib

/-! JSON utility page: position resolver, error diagnoser and repair engine.

A shallow embedding of `src/script.js` (`getLineColumn`, `handleError`,
`fixJSON`) and the properties its specification states about them.

JavaScript strings are sequences of UTF-16 code units; a text is modelled as
the list of its code units, each a natural number. The regular expressions of
the source carry no `u` flag, so they too work code unit by code unit.
-/

namespace JsonEase

/-- A JavaScript string, as the list of its UTF-16 code units. -/
abbrev Text := List Nat

/-- The code units of a string literal (one per character for the ASCII literals used here). -/
def lit (s : String) : Text := s.toList.map Char.toNat

/-! ## Character classes -/

def cNewline : Nat := 10
def cSpace : Nat := 32
def cQuote : Nat := 34
def cApos : Nat := 39
def cComma : Nat := 44
def cColon : Nat := 58
def cRBracket : Nat := 93
def cRBrace : Nat := 125

/-- The class `\s` of a JavaScript regular expression, which is also what
`String.prototype.trim` strips: WhiteSpace and LineTerminator code units. -/
def isSpace (c : Nat) : Bool :=
  c == 9 || c == 10 || c == 11 || c == 12 || c == 13 || c == 32 || c == 160 ||
  c == 5760 || (8192 ≤ c && c ≤ 8202) || c == 8232 || c == 8233 || c == 8239 ||
  c == 8287 || c == 12288 || c == 65279

/-- The class `[}\]]`. -/
def isCloser (c : Nat) : Bool := c == cRBrace || c == cRBracket

/-- The class `\d`. -/
def isDigit (c : Nat) : Bool := 48 ≤ c && c ≤ 57

/-! ## `String.prototype.replace` with a regular expression

A pattern is given by its matcher at a position: on the text that starts at
the position it returns the replacement text and the length of the match, or
`none` when the pattern does not match there. None of the patterns of the
source can match the empty string. -/

/-- What a pattern does at one position: replacement text and match length. -/
abbrev Matcher := Text → Option (Text × Nat)

/-- The global replace `text.replace(/re/g, repl)`: positions are tried from
left to right; a match is replaced and the scan resumes right after it
(`lastIndex`), so matches never overlap; an unmatched code unit is copied.
`skip` counts the code units of the current match still to be passed over. -/
def replaceAll (m : Matcher) : Nat → Text → Text
  | _, [] => []
  | skip + 1, _ :: cs => replaceAll m skip cs
  | 0, c :: cs =>
    match m (c :: cs) with
    | some (rep, len + 1) => rep ++ replaceAll m len cs
    | _ => c :: replaceAll m 0 cs

/-- The non-global replace `text.replace(/re/, repl)`: only the leftmost match is replaced. -/
def replaceFirst (m : Matcher) : Text → Text
  | [] => []
  | c :: cs =>
    match m (c :: cs) with
    | some (rep, len) => rep ++ (c :: cs).drop len
    | none => c :: replaceFirst m cs

/-! ## The heuristic rewrites of `fixJSON` -/

/-- The tail `(\s*[}\]])` of the trailing-comma pattern, matched at the start
of `t`: the captured group. `\s*` is greedy, and since `\s` and `[}\]]` are
disjoint no backtracking can succeed where the greedy run fails. -/
def closerGroup : Text → Option Text
  | [] => none
  | c :: cs =>
    if isCloser c then some [c]
    else if isSpace c then (closerGroup cs).map (c :: ·)
    else none

/-- The pattern `/,(\s*[}\]])/` with replacement `'$1'`. -/
def trailingComma : Matcher
  | [] => none
  | c :: cs =>
    if c == cComma then (closerGroup cs).map (fun g => (g, g.length + 1))
    else none

/-- Line 309: `text.replace(/,(\s*[}\]])/g, '$1')`. -/
def stripTrailingCommas (t : Text) : Text := replaceAll trailingComma 0 t

/-- The group `([^']*)` followed by the closing `'`, matched at the start of
`t`: the group and what follows the closing apostrophe. The class `[^']`
stops only at an apostrophe, so the greedy run is the only candidate. -/
def aposGroup : Text → Option (Text × Text)
  | [] => none
  | c :: cs =>
    if c == cApos then some ([], cs)
    else (aposGroup cs).map (fun p => (c :: p.1, p.2))

/-- The pattern `/'([^']*)':/` with replacement `'"$1":'`. -/
def quotedKey : Matcher
  | c :: cs =>
    if c == cApos then
      match aposGroup cs with
      | some (g, d :: _) =>
        if d == cColon then some (cQuote :: g ++ [cQuote, cColon], g.length + 3) else none
      | _ => none
    else none
  | [] => none

/-- The pattern `/: '([^']*)'/` with replacement `': "$1"'`. -/
def quotedValue : Matcher
  | c :: d :: e :: cs =>
    if c == cColon && d == cSpace && e == cApos then
      match aposGroup cs with
      | some (g, _) => some (cColon :: cSpace :: cQuote :: g ++ [cQuote], g.length + 4)
      | none => none
    else none
  | _ => none

/-- Lines 311-312: the two quote-normalization replaces, in order. -/
def normalizeQuotes (t : Text) : Text :=
  replaceAll quotedValue 0 (replaceAll quotedKey 0 t)

/-- Lines 309-312: the text handed to the parsers. -/
def heuristics (t : Text) : Text := normalizeQuotes (stripTrailingCommas t)


/-! ## Values, the external parsers and the page -/

/-- A JavaScript number, kept symbolically: NaN, an infinity, or the finite
value `(-1)^neg * mant * 2^exp` (zero and negative zero have `mant = 0`). -/
inductive JNum where
  | nan
  | inf (neg : Bool)
  | fin (neg : Bool) (mant : Nat) (exp : Int)
  deriving DecidableEq, Repr

/-- A parsed value: what `JSON.parse` and `JSON5.parse` return. An object is
the list of its entries in insertion order. -/
inductive JVal where
  | null
  | bool (b : Bool)
  | num (n : JNum)
  | str (s : Text)
  | arr (items : List JVal)
  | obj (entries : List (Text × JVal))

/-- The value of `!parsed` is the negation of this (ToBoolean): `null`,
`false`, zero, NaN and the empty string are falsy; arrays and objects are truthy. -/
def JVal.truthy : JVal → Bool
  | .null => false
  | .bool b => b
  | .num .nan => false
  | .num (.inf _) => true
  | .num (.fin _ mant _) => mant != 0
  | .str s => !s.isEmpty
  | .arr _ => true
  | .obj _ => true

/-- The indentation argument `INDENT_SPACE`: a count of spaces or the tab character. -/
inductive Indent where
  | spaces (n : Nat)
  | tab
  deriving DecidableEq, Repr

/-- The primitives the page calls but does not define. -/
structure Env where
  /-- The global `JSON5` when the library is loaded: `JSON5.parse`, `none` when it throws. -/
  json5 : Option (Text → Option JVal)
  /-- `JSON.parse`: the value, or the message of the error it throws. -/
  jsonParse : Text → Except Text JVal
  /-- `JSON.stringify(value, null, indent)`. -/
  stringify : JVal → Indent → Text
  /-- The message of the TypeError thrown by a method call on `null`. -/
  nullCallMessage : Text
  /-- The message of the TypeError thrown by reading `style` of `null`. -/
  nullStyleMessage : Text

/-- A CodeMirror editor, as far as the page uses it. -/
structure Editor where
  value : Text
  cursor : Nat × Nat
  focused : Bool

/-- The element `#error-message`: its text, whether its class list holds
`hidden`, and its inline style `background` (empty until `validateJSON` sets it). -/
structure ErrorBox where
  textContent : Text
  hidden : Bool
  background : Text := []

/-- The mutable state the functions below read and write. An editor is
`none` while the variable is `null`; `errorMessage` is `none` when the
element is missing from the document. -/
structure Page where
  inputEditor : Option Editor
  outputEditor : Option Editor
  errorMessage : Option ErrorBox
  indentSpace : Indent

/-- `editor.setValue(text)`. -/
def Editor.setValue (ed : Editor) (text : Text) : Editor := { ed with value := text }

/-- Lines 230-234. -/
def showError (msg : Text) (p : Page) : Page :=
  match p.errorMessage with
  | none => p
  | some box => { p with errorMessage := some { box with textContent := msg, hidden := false } }

/-- Lines 236-240. -/
def clearError (p : Page) : Page :=
  match p.errorMessage with
  | none => p
  | some box => { p with errorMessage := some { box with textContent := [], hidden := true } }

/-- `String.prototype.trim`. -/
def trim (t : Text) : Text := ((t.dropWhile isSpace).reverse.dropWhile isSpace).reverse

/-- `String.prototype.includes`. -/
def includes : Text → Text → Bool
  | [], sub => sub.isEmpty
  | c :: cs, sub => sub.isPrefixOf (c :: cs) || includes cs sub

/-- A number in a template literal: its decimal digits. -/
def decimal (n : Nat) : Text := (Nat.toDigits 10 n).map Char.toNat

/-! ## Position resolver -/

/-- A 1-based line and column. -/
structure Position where
  line : Nat
  column : Nat
  deriving DecidableEq, Repr

/-- Lines 255-260, the body of the loop at index `i`; `text[i]` is
`undefined` past the end, which is not a newline. -/
def advance (text : Text) (pos : Position) (i : Nat) : Position :=
  if text[i]? = some cNewline then { line := pos.line + 1, column := 1 }
  else { line := pos.line, column := pos.column + 1 }

/-- Lines 248-263. `index` may be any integer; the loop runs `i` over `0, ..., index - 1`. -/
def getLineColumn (text : Text) (index : Int) : Position :=
  let index := if index ≥ text.length then (text.length : Int) - 1 else index
  if index < 0 then { line := 1, column := 1 }
  else (List.range index.toNat).foldl (advance text) { line := 1, column := 1 }

/-! ## Error diagnoser -/

/-- A thrown `Error` object. -/
structure JsError where
  name : Text
  message : Text

/-- `String(error)`, that is `Error.prototype.toString`. -/
def JsError.toText (e : JsError) : Text :=
  if e.name.isEmpty then e.message
  else if e.message.isEmpty then e.name
  else e.name ++ lit ": " ++ e.message

/-- Line 266: `error.message || String(error)`. -/
def errorString (e : JsError) : Text :=
  if e.message.isEmpty then e.toText else e.message

/-- One pattern character against one code unit under the `i` flag: both
canonicalize to the same upper-case code unit. For an ASCII letter of the
pattern only its two ASCII cases do (a non-ASCII code unit whose upper case
is ASCII is left as it is by the canonicalization). -/
def sameIgnoringCase (pat c : Nat) : Bool :=
  c == pat || (97 ≤ pat && pat ≤ 122 && c + 32 == pat)

/-- A literal of the pattern matched, ignoring case, at the start of the
text: what follows it. -/
def afterLiteral : Text → Text → Option Text
  | [], t => some t
  | _ :: _, [] => none
  | pat :: pats, c :: cs => if sameIgnoringCase pat c then afterLiteral pats cs else none

/-- The pattern `/at position (\d+)/i` at the start of the text: the digits captured. -/
def atPositionHere (t : Text) : Option Text :=
  match afterLiteral (lit "at position ") t with
  | none => none
  | some rest =>
    let digits := rest.takeWhile isDigit
    if digits.isEmpty then none else some digits

/-- Line 270: `errorString.match(/at position (\d+)/i)`, the group of the leftmost match. -/
def posMatch : Text → Option Text
  | [] => none
  | c :: cs =>
    match atPositionHere (c :: cs) with
    | some digits => some digits
    | none => posMatch cs

/-- The pattern `/at position \d+/i` with the empty replacement. -/
def atPosition : Matcher := fun t =>
  (atPositionHere t).map (fun digits => ([], 12 + digits.length))

/-- `parseInt(digits, 10)` on a run of decimal digits. The source's result is
a double; it differs from this one only above 2^53, where both exceed every
text length. -/
def parseInt (digits : Text) : Nat := digits.foldl (fun acc d => 10 * acc + (d - 48)) 0

/-- Lines 287-295: the friendly replacement of a cleaned message. -/
def friendly (msg : Text) : Text :=
  if includes msg (lit "Unexpected token \x7d") then
    lit "It looks like you have an extra closing brace \x27\x7d\x27 or a trailing comma before it."
  else if includes msg (lit "Unexpected token ]") then
    lit "It looks like you have an extra closing bracket \x27]\x27 or a trailing comma before it."
  else if includes msg (lit "Unexpected token ,") then
    lit "You might have a misplaced comma \x27,\x27 or a missing value."
  else if includes msg (lit "Unexpected end of JSON input") then
    lit "The JSON string ends prematurely. Check for missing closing braces \x27\x7d\x27 or brackets \x27]\x27."
  else msg

/-- Lines 265-298. -/
def handleError (error : JsError) (p : Page) : Page :=
  let errorString := errorString error
  let text := match p.inputEditor with
    | some ed => ed.value
    | none => []
  match posMatch errorString with
  | some digits =>
    let charIndex := parseInt digits
    let pos := getLineColumn text charIndex
    let p1 := showError (lit "Error at Line " ++ decimal pos.line ++ lit ", Column "
      ++ decimal pos.column ++ lit ": " ++ trim (replaceFirst atPosition errorString)) p
    match p1.inputEditor with
    | some ed =>
      let moved : Editor := { ed with cursor := (pos.line - 1, pos.column - 1), focused := true }
      { p1 with inputEditor := some moved }
    | none => p1
  | none =>
    let friendlyMsg := friendly (trim (replaceFirst atPosition errorString))
    showError (lit "Error: " ++ friendlyMsg) p

/-! ## Repair engine -/

/-- Lines 315-323: the variable `parsed` after the tolerant attempt;
`none` is `undefined` (library not loaded, or `JSON5.parse` threw). -/
def tolerantParse (E : Env) (text : Text) : Option JVal :=
  match E.json5 with
  | some parse5 => parse5 text
  | none => none

/-- Lines 315-328: the value parsed from the rewritten text, or the message
of the error `JSON.parse` throws. -/
def parseRepaired (E : Env) (text : Text) : Except Text JVal :=
  match tolerantParse E text with
  | some v => if !v.truthy then E.jsonParse text else .ok v
  | none => E.jsonParse text

/-- Lines 307-331, the body of the `try` block up to `formatted`: the parsed
value and the canonical text, or the message of the error thrown. -/
def repair (E : Env) (indent : Indent) (text : Text) : Except Text (JVal × Text) :=
  match parseRepaired E (heuristics text) with
  | .error msg => .error msg
  | .ok parsed => .ok (parsed, E.stringify parsed indent)

/-- Lines 301-341. The timer that clears the success notice two seconds
later is not part of the state. -/
def fixJSON (E : Env) (p : Page) : Page :=
  match p.inputEditor with
  | none => p
  | some input =>
    if (trim input.value).isEmpty then p
    else
      match repair E p.indentSpace input.value with
      | .error msg => showError (lit "Could not auto-fix: " ++ msg) p
      | .ok (_, formatted) =>
        let p1 := { p with inputEditor := some (input.setValue formatted) }
        match p1.outputEditor with
        | none => showError (lit "Could not auto-fix: " ++ E.nullCallMessage) p1
        | some output =>
          showError (lit "✓ Magic Fix Applied!")
            (clearError { p1 with outputEditor := some (output.setValue formatted) })

/-! ## Format, validate and minify -/

/-- The error `JSON.parse` throws. -/
def syntaxError (message : Text) : JsError := { name := lit "SyntaxError", message := message }

/-- Lines 467-489. Rendering the tree view (lines 482-484) writes to the
document only and is not part of the state. -/
def formatJSON (E : Env) (p : Page) : Page :=
  match p.inputEditor, p.outputEditor with
  | some input, some output =>
    let text := trim input.value
    if text.isEmpty then clearError { p with outputEditor := some (output.setValue []) }
    else
      match E.jsonParse text with
      | .ok parsed =>
        let formatted := E.stringify parsed p.indentSpace
        clearError { p with outputEditor := some (output.setValue formatted) }
      | .error message =>
        let p1 := handleError (syntaxError message) p
        { p1 with outputEditor := some (output.setValue []) }
  | _, _ => p

/-- Lines 491-512. The timer that clears the success notice is not part of
the state. When the error element is missing, reading its `style` throws
inside the `try` block and the `catch` hands the TypeError to `handleError`. -/
def validateJSON (E : Env) (p : Page) : Page :=
  match p.inputEditor with
  | none => p
  | some input =>
    let text := trim input.value
    if text.isEmpty then showError (lit "Input is empty") p
    else
      match E.jsonParse text with
      | .ok _ =>
        match p.errorMessage with
        | some box =>
          let shown : ErrorBox := { box with
            textContent := lit "✓ Valid JSON", hidden := false,
            background := lit "var(--btn-primary-bg)" }
          { p with errorMessage := some shown }
        | none => handleError { name := lit "TypeError", message := E.nullStyleMessage } p
      | .error message => handleError (syntaxError message) p

/-- Lines 514-533. `JSON.stringify(parsed)` without an indentation argument
is `JSON.stringify(parsed, null, 0)`. -/
def minifyJSON (E : Env) (p : Page) : Page :=
  match p.inputEditor, p.outputEditor with
  | some input, some output =>
    let text := trim input.value
    if text.isEmpty then clearError { p with outputEditor := some (output.setValue []) }
    else
      match E.jsonParse text with
      | .ok parsed =>
        let minified := E.stringify parsed (.spaces 0)
        clearError { p with outputEditor := some (output.setValue minified) }
      | .error message =>
        let p1 := handleError (syntaxError message) p
        { p1 with outputEditor := some (output.setValue []) }
  | _, _ => p

/-! ## Conversion service -/

/-- The primitives of the language the converters rely on. -/
structure Host where
  /-- `String(n)` for a number `n`. -/
  numberToString : JNum → Text
  /-- `String(Object.prototype[key])` for the keys `Object.prototype` defines
  (`toString`, `constructor`, ...); `none` for every other key. -/
  inheritedText : Text → Option Text

/-- A primitive value or `null`: what a cell of a flattened row holds. -/
inductive Prim where
  | null
  | bool (b : Bool)
  | num (n : JNum)
  | str (s : Text)

/-- The value as a primitive; `none` for an array or an object, the values
for which `val && typeof val === 'object'` holds. -/
def JVal.prim? : JVal → Option Prim
  | .null => some .null
  | .bool b => some (.bool b)
  | .num n => some (.num n)
  | .str s => some (.str s)
  | .arr _ => none
  | .obj _ => none

/-- `String(val)` for a primitive value or `null`. -/
def Prim.toText (host : Host) : Prim → Text
  | .null => lit "null"
  | .bool true => lit "true"
  | .bool false => lit "false"
  | .num n => host.numberToString n
  | .str s => s

/-- The number a key denotes when it is an array index: the canonical
decimal form of an integer below 2^32 - 1. -/
def arrayIndex (key : Text) : Option Nat :=
  if key.all isDigit && !key.isEmpty && (key == [48] || key.head? != some 48)
      && decide (parseInt key < 4294967295) then
    some (parseInt key)
  else none

/-- One step of sorting indices into ascending order. -/
def insertAscending (n : Nat) : List Nat → List Nat
  | [] => [n]
  | m :: ms => if n ≤ m then n :: m :: ms else m :: insertAscending n ms

/-- An ordinary object created by the literal `{}`, holding primitives. -/
structure PlainObject where
  /-- Whether the prototype is still `Object.prototype`. -/
  inheritsObject : Bool
  /-- The own properties, in creation order. -/
  props : List (Text × Prim)

/-- The literal `{}`. -/
def PlainObject.empty : PlainObject := { inheritsObject := true, props := [] }

/-- The assignment `res[key] = val`. An own property is overwritten in place.
Otherwise the key `__proto__` reaches the setter inherited from
`Object.prototype`, which takes `null` as the new prototype and ignores a
primitive; every other key, and `__proto__` on an object without prototype,
becomes a new own property. -/
def PlainObject.assign (o : PlainObject) (key : Text) (val : Prim) : PlainObject :=
  if o.props.any (fun q => q.1 == key) then
    { o with props := o.props.map (fun q => if q.1 == key then (key, val) else q) }
  else if o.inheritsObject && key == lit "__proto__" then
    match val with
    | .null => { o with inheritsObject := false }
    | _ => o
  else { o with props := o.props ++ [(key, val)] }

/-- `Object.keys(o)`: the array indices in ascending order, then the other
keys in creation order. -/
def PlainObject.keys (o : PlainObject) : List Text :=
  ((o.props.filterMap (fun q => arrayIndex q.1)).foldr insertAscending []).map decimal ++
    (o.props.filter (fun q => (arrayIndex q.1).isNone)).map (fun q => q.1)

/-- `String(row[header])`, or `none` when `row[header]` is `undefined`: an own
property, else a property inherited from `Object.prototype`. -/
def PlainObject.get (host : Host) (o : PlainObject) (key : Text) : Option Text :=
  match o.props.find? (fun q => q.1 == key) with
  | some q => some (q.2.toText host)
  | none => if o.inheritsObject then host.inheritedText key else none

/-- Line 545: the key under a prefix; the empty prefix is falsy. -/
def joinKey (pre key : Text) : Text :=
  if pre.isEmpty then key else pre ++ lit "." ++ key

/-- The loop of `flatten` over a string, whose enumerable keys are its
indices and whose values there are the one-unit strings. -/
def flattenChars : Text → Nat → Text → PlainObject → PlainObject
  | [], _, _, res => res
  | c :: cs, i, pre, res =>
    flattenChars cs (i + 1) pre (res.assign (joinKey pre (decimal i)) (.str [c]))

mutual
/-- Lines 542-553, `flatten(data, prefix, res)`. The `for ... in` loop runs
over the entries of an object, the indices of an array or of a string, and
over nothing for `null`, a boolean or a number. -/
def flatten : JVal → Text → PlainObject → PlainObject
  | .obj entries, pre, res => flattenEntries entries pre res
  | .arr items, pre, res => flattenItems items 0 pre res
  | .str s, pre, res => flattenChars s 0 pre res
  | _, _, res => res
/-- The loop over the entries of an object, from the current entry on. -/
def flattenEntries : List (Text × JVal) → Text → PlainObject → PlainObject
  | [], _, res => res
  | (key, val) :: rest, pre, res =>
    match val.prim? with
    | some leaf => flattenEntries rest pre (res.assign (joinKey pre key) leaf)
    | none => flattenEntries rest pre (flatten val (joinKey pre key) res)
/-- The loop over the items of an array, from index `i` on. -/
def flattenItems : List JVal → Nat → Text → PlainObject → PlainObject
  | [], _, _, res => res
  | val :: rest, i, pre, res =>
    match val.prim? with
    | some leaf => flattenItems rest (i + 1) pre (res.assign (joinKey pre (decimal i)) leaf)
    | none => flattenItems rest (i + 1) pre (flatten val (joinKey pre (decimal i)) res)
end

/-- `Array.prototype.join`. -/
def join (sep : Text) : List Text → Text
  | [] => []
  | [x] => x
  | x :: y :: rest => x ++ sep ++ join sep (y :: rest)

/-- `[...new Set(keys)]`: the keys without repetition, in the order of their
first occurrence; `seen` holds the keys added so far. -/
def insertionOrder : List Text → List Text → List Text
  | seen, [] => seen
  | seen, key :: rest =>
    if seen.contains key then insertionOrder seen rest
    else insertionOrder (seen ++ [key]) rest

/-- The pattern `/"/` with replacement `'""'`. -/
def doubleQuote : Matcher
  | [] => none
  | c :: _ => if c == cQuote then some ([cQuote, cQuote], 1) else none

/-- Lines 564-566: the field emitted for a cell whose string form is `stringVal`. -/
def csvField (stringVal : Text) : Text :=
  if includes stringVal [cComma] || includes stringVal [cQuote]
      || includes stringVal [cNewline] then
    cQuote :: replaceAll doubleQuote 0 stringVal ++ [cQuote]
  else stringVal

/-- Lines 562-563: the string form of the cell of `row` under `header`. -/
def cellText (host : Host) (row : PlainObject) (header : Text) : Text :=
  match row.get host header with
  | some text => text
  | none => []

/-- `typeof v === 'object'`. -/
def isObjectType : JVal → Bool
  | .null => true
  | .arr _ => true
  | .obj _ => true
  | _ => false

/-- The message of the error thrown at line 538. -/
def csvShapeMessage : Text := lit "CSV conversion requires a JSON array of objects"

/-- Line 555: the flattened rows. -/
def flatRows (items : List JVal) : List PlainObject :=
  items.map (fun item => flatten item [] PlainObject.empty)

/-- Line 556: the header keys. -/
def csvHeaders (flatData : List PlainObject) : List Text :=
  insertionOrder [] (flatData.flatMap PlainObject.keys)

/-- Lines 560-569: the fields of one data row. -/
def csvValues (host : Host) (headers : List Text) (row : PlainObject) : List Text :=
  headers.map (fun header => csvField (cellText host row header))

/-- Lines 558-569: the rows, the header row first. -/
def csvRows (host : Host) (flatData : List PlainObject) : List Text :=
  join [cComma] (csvHeaders flatData) ::
    flatData.map (fun row => join [cComma] (csvValues host (csvHeaders flatData) row))

/-- Lines 536-572: the text returned, or the message of the error thrown. -/
def jsonToCsv (host : Host) (obj : JVal) : Except Text Text :=
  match obj with
  | .arr (first :: rest) =>
    if isObjectType first then .ok (join [cNewline] (csvRows host (flatRows (first :: rest))))
    else .error csvShapeMessage
  | _ => .error csvShapeMessage

/-- The start tag `<name>`. -/
def openTag (name : Text) : Text := lit "<" ++ name ++ lit ">"

/-- The end tag `</name>`. -/
def closeTag (name : Text) : Text := lit "</" ++ name ++ lit ">"

mutual
/-- Lines 575-591, `toXml(data, rootName)`. -/
def toXml (host : Host) : JVal → Text → Text
  | .arr items, _ => toXmlItems host items
  | .obj entries, rootName => openTag rootName ++ toXmlEntries host entries ++ closeTag rootName
  | .null, rootName => openTag rootName ++ Prim.toText host .null ++ closeTag rootName
  | .bool b, rootName => openTag rootName ++ Prim.toText host (.bool b) ++ closeTag rootName
  | .num n, rootName => openTag rootName ++ Prim.toText host (.num n) ++ closeTag rootName
  | .str s, rootName => openTag rootName ++ Prim.toText host (.str s) ++ closeTag rootName
/-- Lines 578-580: the loop over the items of an array. -/
def toXmlItems (host : Host) : List JVal → Text
  | [] => []
  | item :: rest => toXml host item (lit "item") ++ toXmlItems host rest
/-- Lines 583-585: the loop over the keys of an object. -/
def toXmlEntries (host : Host) : List (Text × JVal) → Text
  | [] => []
  | (key, val) :: rest => toXml host val key ++ toXmlEntries host rest
end

/-- The XML declaration of line 593. -/
def xmlDeclaration : Text := lit "<?xml version=\"1.0\" encoding=\"UTF-8\"?>\n"

/-- Lines 574-594. -/
def jsonToXml (host : Host) (obj : JVal) : Text := xmlDeclaration ++ toXml host obj (lit "root")

/-- The entries an array has when read as an object: its items under the
decimal forms of their indices, counted from `i`. -/
def indexedFrom : Nat → List JVal → List (Text × JVal)
  | _, [] => []
  | i, val :: rest => (decimal i, val) :: indexedFrom (i + 1) rest

/-- The primitive as a parsed value. -/
def Prim.toJVal : Prim → JVal
  | .null => .null
  | .bool b => .bool b
  | .num n => .num n
  | .str s => .str s

/-- The cells a sequence of primitives fills: item `j` of the list, counted
from `i`, is assigned under the key `i + j` joined to the prefix. -/
def assignIndexed : List Prim → Nat → Text → PlainObject → PlainObject
  | [], _, _, res => res
  | leaf :: rest, i, pre, res =>
    assignIndexed rest (i + 1) pre (res.assign (joinKey pre (decimal i)) leaf)

/-- `String(n)` on the small integers of the examples; `NaN` elsewhere. -/
def sampleNumberToString : JNum → Text
  | .fin false mant 0 => decimal mant
  | _ => lit "NaN"

/-- `String(Object.prototype[key])` in V8. -/
def sampleInheritedText (key : Text) : Option Text :=
  if key = lit "constructor" then some (lit "function Object() \x7b [native code] \x7d")
  else if key = lit "__proto__" then some (lit "[object Object]")
  else if [lit "toString", lit "toLocaleString", lit "valueOf", lit "hasOwnProperty",
      lit "isPrototypeOf", lit "propertyIsEnumerable", lit "__defineGetter__",
      lit "__defineSetter__", lit "__lookupGetter__", lit "__lookupSetter__"].contains key then
    some (lit "function " ++ key ++ lit "() \x7b [native code] \x7d")
  else none

/-- The sample host. -/
def sampleHost : Host where
  numberToString := sampleNumberToString
  inheritedText := sampleInheritedText

/-! ## A sample environment

The answers of the real primitives (`JSON.parse` and `JSON.stringify` of V8,
`JSON5.parse` of the JSON5 library) on the few texts and values the worked
examples below use; every other text is rejected. -/

/-- The number `n`. -/
def JNum.ofNat (n : Nat) : JNum := .fin false n 0

/-- The value `{"a":1}`. -/
def objA1 : JVal := .obj [(lit "a", .num (JNum.ofNat 1))]

/-- The value `[1,2]`. -/
def arr12 : JVal := .arr [.num (JNum.ofNat 1), .num (JNum.ofNat 2)]

/-- The value `{"a":"b"}`. -/
def objAB : JVal := .obj [(lit "a", .str (lit "b"))]

/-- What both parsers return on the standard JSON texts of the examples. -/
def sampleValue (t : Text) : Option JVal :=
  if t = lit "\x7b\"a\":1\x7d" then some objA1
  else if t = lit "[1,2]" then some arr12
  else if t = lit "[\n  1,\n  2\n]" then some arr12
  else if t = lit "\x7b\"a\": \"b\"\x7d" then some objAB
  else if t = lit "\",]\"" then some (.str (lit ",]"))
  else if t = lit "\"]\"" then some (.str (lit "]"))
  else none

/-- `JSON5.parse` on the sample texts: besides standard JSON it reads the
single-quoted empty string. -/
def sampleJson5 (t : Text) : Option JVal :=
  if t = lit "\x27\x27" then some (.str []) else sampleValue t

/-- `JSON.parse` on the sample texts; the message is the one V8 gives for a
text that starts with an apostrophe. -/
def sampleJsonParse (t : Text) : Except Text JVal :=
  match sampleValue t with
  | some v => .ok v
  | none => .error (lit "Unexpected token \x27 in JSON at position 0")

/-- `JSON.stringify(value, null, indent)` on the sample values. -/
def sampleStringify : JVal → Indent → Text
  | .str s, _ => cQuote :: s ++ [cQuote]
  | .obj [(k, .num (.fin false 1 0))], .spaces 2 =>
    lit "\x7b\n  \"" ++ k ++ lit "\": 1\n\x7d"
  | .obj [(k, .str s)], .spaces 2 =>
    lit "\x7b\n  \"" ++ k ++ lit "\": \"" ++ s ++ lit "\"\n\x7d"
  | .arr [.num (.fin false 1 0), .num (.fin false 2 0)], .spaces 2 => lit "[\n  1,\n  2\n]"
  | _, _ => lit "null"

/-- The sample environment, with the JSON5 library loaded. -/
def sampleEnv : Env where
  json5 := some sampleJson5
  jsonParse := sampleJsonParse
  stringify := sampleStringify
  nullCallMessage := lit "Cannot read properties of null (reading \x27setValue\x27)"
  nullStyleMessage := lit "Cannot read properties of null (reading \x27style\x27)"

/-- A page with both editors and the error element, holding `text` in the input editor. -/
def samplePage (text : Text) : Page where
  inputEditor := some { value := text, cursor := (0, 0), focused := false }
  outputEditor := some { value := [], cursor := (0, 0), focused := false }
  errorMessage := some { textContent := [], hidden := true }
  indentSpace := .spaces 2

/-- The strict parser reads the text as the value. -/
def StrictReads (E : Env) (t : Text) (v : JVal) : Prop := E.jsonParse t = .ok v

/-- The tolerant parser, when the library is loaded, reads the text as the value. -/
def TolerantReads (E : Env) (t : Text) (v : JVal) : Prop :=
  ∀ parse5, E.json5 = some parse5 → parse5 t = some v

/-! ## An embedded offset, as the specification words it -/

/-- The lower-case form of an ASCII letter; other code units are unchanged. -/
def toLowerAscii (c : Nat) : Nat := if 65 ≤ c ∧ c ≤ 90 then c + 32 else c

/-- The message embeds an offset: somewhere it reads `at position `, in any
mix of upper and lower case, followed by a decimal digit. -/
def EmbedsOffset (msg : Text) : Prop :=
  ∃ pre word d rest, msg = pre ++ word ++ d :: rest ∧
    word.map toLowerAscii = lit "at position " ∧ isDigit d = true

/-! ## The trailing-comma step, as the specification words it -/

/-- The text starts with zero or more whitespace code units and then `}` or `]`. -/
def followedByCloser : Text → Bool
  | [] => false
  | c :: cs => isCloser c || (isSpace c && followedByCloser cs)

/-- The trailing-comma step in the specification's words: every comma that is
followed by optional whitespace and a closing brace or bracket is deleted,
every other code unit is kept, in order. -/
def deleteTrailingCommas : Text → Text
  | [] => []
  | c :: cs =>
    if c == cComma && followedByCloser cs then deleteTrailingCommas cs
    else c :: deleteTrailingCommas cs

/-- The text starts with optional whitespace, a comma, optional whitespace and a closer. -/
def commaThenCloser : Text → Bool
  | [] => false
  | c :: cs => (c == cComma && followedByCloser cs) || (isSpace c && commaThenCloser cs)

/-- Some comma of the text is followed, through optional whitespace, by a
second comma that is itself followed, through optional whitespace, by a closer. -/
def hasStackedComma : Text → Bool
  | [] => false
  | c :: cs => (c == cComma && commaThenCloser cs) || hasStackedComma cs

/-- Some comma of the text is followed, through optional whitespace, by a closer. -/
def hasTrailingComma : Text → Bool
  | [] => false
  | c :: cs => (c == cComma && followedByCloser cs) || hasTrailingComma cs

/-! ## Lemmas on the replace loop and the trailing-comma step -/

theorem replaceAll_skip (m : Matcher) (k : Nat) (t : Text) :
    replaceAll m k t = replaceAll m 0 (t.drop k) := by
  induction k generalizing t with
  | zero => simp
  | succ k ih =>
    cases t with
    | nil => simp [replaceAll]
    | cons c cs => simp [replaceAll, ih cs]

theorem replaceAll_nil (m : Matcher) (k : Nat) : replaceAll m k [] = [] := by
  cases k <;> simp [replaceAll]

theorem replaceAll_cons_none (m : Matcher) (c : Nat) (cs : Text) (h : m (c :: cs) = none) :
    replaceAll m 0 (c :: cs) = c :: replaceAll m 0 cs := by
  simp [replaceAll, h]

theorem replaceAll_cons_some (m : Matcher) (c : Nat) (cs rep : Text) (len : Nat)
    (h : m (c :: cs) = some (rep, len + 1)) :
    replaceAll m 0 (c :: cs) = rep ++ replaceAll m 0 (cs.drop len) := by
  simp [replaceAll, h, ← replaceAll_skip]

theorem closerGroup_isSome (t : Text) : (closerGroup t).isSome = followedByCloser t := by
  induction t with
  | nil => rfl
  | cons c cs ih =>
    simp only [closerGroup, followedByCloser]
    by_cases h1 : isCloser c = true
    · simp [h1]
    · by_cases h2 : isSpace c = true
      · simp [h1, h2, ih]
      · simp [h1, h2]

theorem isCloser_ne_comma {c : Nat} (h : isCloser c = true) : (c == cComma) = false := by
  simp only [isCloser, cRBrace, cRBracket, cComma, Bool.or_eq_true, beq_iff_eq] at h
  rcases h with h | h <;> subst h <;> rfl

theorem isSpace_ne_comma {c : Nat} (h : isSpace c = true) : (c == cComma) = false := by
  by_cases hc : c = cComma
  · subst hc; simp [isSpace, cComma] at h
  · simpa using hc

theorem isSpace_not_closer {c : Nat} (h : isSpace c = true) : isCloser c = false := by
  by_cases hc : isCloser c = true
  · simp only [isCloser, cRBrace, cRBracket, Bool.or_eq_true, beq_iff_eq] at hc
    rcases hc with hc | hc <;> subst hc <;> simp [isSpace] at h
  · simpa using hc

theorem trailingComma_of_ne (c : Nat) (cs : Text) (h : (c == cComma) = false) :
    trailingComma (c :: cs) = none := by
  simp [trailingComma, h]

/-- The captured group is a run of non-comma code units at the start of the
text, so the scan that resumes after the match equals the scan of the text
after the comma. -/
theorem closerGroup_resume (t g : Text) (h : closerGroup t = some g) :
    g ++ stripTrailingCommas (t.drop g.length) = stripTrailingCommas t := by
  induction t generalizing g with
  | nil => simp [closerGroup] at h
  | cons c cs ih =>
    simp only [closerGroup] at h
    by_cases h1 : isCloser c = true
    · simp only [h1, if_true, Option.some.injEq] at h
      subst h
      simp [stripTrailingCommas,
        replaceAll_cons_none _ c cs (trailingComma_of_ne c cs (isCloser_ne_comma h1))]
    · by_cases h2 : isSpace c = true
      · simp only [h1, h2, if_true, Bool.false_eq_true, if_false] at h
        cases hg1 : closerGroup cs with
        | none => simp [hg1] at h
        | some g1 =>
        simp only [hg1, Option.map_some', Option.some.injEq] at h
        subst h
        have := ih g1 hg1
        simp only [stripTrailingCommas] at this ⊢
        rw [replaceAll_cons_none _ c cs (trailingComma_of_ne c cs (isSpace_ne_comma h2))]
        simp [this]
      · simp [h1, h2] at h

/-- The loop of line 309, one code unit at a time. -/
theorem stripTrailingCommas_cons (c : Nat) (cs : Text) :
    stripTrailingCommas (c :: cs) =
      if c == cComma && followedByCloser cs then stripTrailingCommas cs
      else c :: stripTrailingCommas cs := by
  by_cases hc : (c == cComma) = true
  · cases hg : closerGroup cs with
    | none =>
      have hf : followedByCloser cs = false := by rw [← closerGroup_isSome, hg]; rfl
      have hm : trailingComma (c :: cs) = none := by simp [trailingComma, hc, hg]
      simp [stripTrailingCommas, replaceAll_cons_none _ c cs hm, hf]
    | some g =>
      have hf : followedByCloser cs = true := by rw [← closerGroup_isSome, hg]; rfl
      have hm : trailingComma (c :: cs) = some (g, g.length + 1) := by
        simp [trailingComma, hc, hg]
      have := closerGroup_resume cs g hg
      simp only [stripTrailingCommas] at this ⊢
      rw [replaceAll_cons_some _ c cs g g.length hm, this]
      simp [hc, hf]
  · have hc2 : (c == cComma) = false := by simpa using hc
    simp [stripTrailingCommas, replaceAll_cons_none _ c cs (trailingComma_of_ne c cs hc2), hc2]

theorem stripTrailingCommas_nil : stripTrailingCommas [] = [] := rfl

theorem stripTrailingCommas_eq_spec (t : Text) :
    stripTrailingCommas t = deleteTrailingCommas t := by
  induction t with
  | nil => rfl
  | cons c cs ih => rw [stripTrailingCommas_cons, deleteTrailingCommas, ih]

theorem stripTrailingCommas_length_le (t : Text) :
    (stripTrailingCommas t).length ≤ t.length := by
  induction t with
  | nil => simp [stripTrailingCommas_nil]
  | cons c cs ih =>
    rw [stripTrailingCommas_cons]
    split
    · simp; omega
    · simp; omega

theorem followedByCloser_strip (t : Text) :
    followedByCloser (stripTrailingCommas t) = (followedByCloser t || commaThenCloser t) := by
  induction t with
  | nil => rfl
  | cons c cs ih =>
    rw [stripTrailingCommas_cons]
    by_cases h : (c == cComma && followedByCloser cs) = true
    · rw [if_pos h, ih]
      simp only [Bool.and_eq_true] at h
      simp [commaThenCloser, h.1, h.2]
    · rw [if_neg h]
      have h2 : (c == cComma && followedByCloser cs) = false := by simpa using h
      simp only [followedByCloser, commaThenCloser, ih, h2, Bool.false_or]
      cases isCloser c <;> cases isSpace c <;> simp

theorem followedByCloser_not_commaThenCloser (t : Text) (h : followedByCloser t = true) :
    commaThenCloser t = false := by
  induction t with
  | nil => rfl
  | cons c cs ih =>
    simp only [followedByCloser, Bool.or_eq_true, Bool.and_eq_true] at h
    simp only [commaThenCloser]
    rcases h with h | ⟨h1, h2⟩
    · have := isCloser_ne_comma h
      have h3 : isSpace c = false := by
        by_cases hs : isSpace c = true
        · rw [isSpace_not_closer hs] at h; exact absurd h (by simp)
        · simpa using hs
      simp [this, h3]
    · simp [isSpace_ne_comma h1, ih h2]

theorem hasTrailingComma_strip (t : Text) :
    hasTrailingComma (stripTrailingCommas t) = hasStackedComma t := by
  induction t with
  | nil => rfl
  | cons c cs ih =>
    rw [stripTrailingCommas_cons]
    by_cases h : (c == cComma && followedByCloser cs) = true
    · rw [if_pos h, ih]
      simp only [Bool.and_eq_true] at h
      simp [hasStackedComma, followedByCloser_not_commaThenCloser cs h.2]
    · rw [if_neg h]
      have h2 : (c == cComma && followedByCloser cs) = false := by simpa using h
      simp only [hasTrailingComma, hasStackedComma, ih, followedByCloser_strip,
        Bool.and_or_distrib_left, h2, Bool.false_or]

theorem stripTrailingCommas_fixed_iff (t : Text) :
    stripTrailingCommas t = t ↔ hasTrailingComma t = false := by
  induction t with
  | nil => simp [stripTrailingCommas_nil, hasTrailingComma]
  | cons c cs ih =>
    rw [stripTrailingCommas_cons]
    by_cases h : (c == cComma && followedByCloser cs) = true
    · rw [if_pos h]
      simp only [hasTrailingComma, h, Bool.true_or]
      constructor
      · intro he
        have := stripTrailingCommas_length_le cs
        rw [he] at this
        simp at this
      · intro he; exact absurd he (by simp)
    · rw [if_neg h]
      have h2 : (c == cComma && followedByCloser cs) = false := by simpa using h
      simp only [hasTrailingComma, h2, Bool.false_or, List.cons.injEq, true_and]
      exact ih

theorem followedByCloser_iff (t : Text) :
    followedByCloser t = true ↔
      ∃ ws c rest, t = ws ++ c :: rest ∧ (∀ w ∈ ws, isSpace w = true) ∧ isCloser c = true := by
  induction t with
  | nil => simp [followedByCloser]
  | cons c cs ih =>
    simp only [followedByCloser, Bool.or_eq_true, Bool.and_eq_true]
    constructor
    · rintro (h | ⟨h1, h2⟩)
      · exact ⟨[], c, cs, rfl, by simp, h⟩
      · obtain ⟨ws, d, rest, rfl, hw, hd⟩ := ih.mp h2
        refine ⟨c :: ws, d, rest, rfl, ?_, hd⟩
        intro w hw2
        rcases List.mem_cons.mp hw2 with rfl | hw3
        · exact h1
        · exact hw w hw3
    · rintro ⟨ws, d, rest, he, hw, hd⟩
      cases ws with
      | nil =>
        simp only [List.nil_append, List.cons.injEq] at he
        left; rw [he.1]; exact hd
      | cons w ws =>
        simp only [List.cons_append, List.cons.injEq] at he
        right
        refine ⟨by rw [he.1]; exact hw w (List.mem_cons_self _ _), ih.mpr ?_⟩
        exact ⟨ws, d, rest, he.2, fun x hx => hw x (List.mem_cons_of_mem _ hx), hd⟩


/-! ## Repair on a text both parsers read -/

theorem parseRepaired_of_reads (E : Env) (t : Text) (v : JVal)
    (hs : StrictReads E t v) (ht : TolerantReads E t v) : parseRepaired E t = .ok v := by
  unfold parseRepaired tolerantParse
  cases h5 : E.json5 with
  | none => exact hs
  | some parse5 =>
    simp only [ht parse5 h5]
    cases v.truthy
    · exact hs
    · rfl

theorem repair_of_reads (E : Env) (indent : Indent) (t : Text) (v : JVal)
    (hs : StrictReads E (heuristics t) v) (ht : TolerantReads E (heuristics t) v) :
    repair E indent t = .ok (v, E.stringify v indent) := by
  unfold repair
  rw [parseRepaired_of_reads E _ v hs ht]

theorem tolerantReads_sampleEnv (t : Text) (v : JVal) (h : sampleJson5 t = some v) :
    TolerantReads sampleEnv t v := by
  intro parse5 h5
  cases h5
  exact h

/-! ## Claims C1 and C2: the trailing-comma step -/

/-- C1, as stated, fails: on `[1,,]` the first pass deletes the second comma
only, leaving `[1,]`, and a second pass deletes the comma that is left. -/
theorem C1_counterexample :
    stripTrailingCommas (lit "[1,,]") = lit "[1,]" ∧
    stripTrailingCommas (stripTrailingCommas (lit "[1,,]")) = lit "[1]" ∧
    stripTrailingCommas (stripTrailingCommas (lit "[1,,]")) ≠ stripTrailingCommas (lit "[1,,]") := by
  decide

/-- C1, amended: a second pass of the trailing-comma step is a no-op exactly
on the texts without stacked commas, that is without a comma followed through
optional whitespace by a second comma which is followed through optional
whitespace by `}` or `]`. -/
theorem C1_strip_idempotent_iff (t : Text) :
    stripTrailingCommas (stripTrailingCommas t) = stripTrailingCommas t ↔
      hasStackedComma t = false := by
  rw [stripTrailingCommas_fixed_iff, hasTrailingComma_strip]

/-- C1 on a sample: `[1,2, ]` has no stacked comma and the second pass changes nothing. -/
theorem C1_strip_idempotent_witness :
    hasStackedComma (lit "[1,2, ]") = false ∧
    stripTrailingCommas (stripTrailingCommas (lit "[1,2, ]")) = stripTrailingCommas (lit "[1,2, ]") :=
  ⟨by decide, (C1_strip_idempotent_iff (lit "[1,2, ]")).mpr (by decide)⟩

/-- C2: the trailing-comma step returns the text with exactly the commas
deleted that are followed by zero or more whitespace code units and then `}`
or `]`, everything else kept in order; `{"a":1,}` becomes `{"a":1}` and
`[1,2,]` becomes `[1,2]`, and with parsers that read these two results as the
values `{"a":1}` and `[1,2]` the repair of the two inputs yields these values. -/
theorem C2_strip_deletes_trailing_commas (E : Env) (indent : Indent)
    (hs1 : StrictReads E (lit "\x7b\"a\":1\x7d") objA1)
    (ht1 : TolerantReads E (lit "\x7b\"a\":1\x7d") objA1)
    (hs2 : StrictReads E (lit "[1,2]") arr12)
    (ht2 : TolerantReads E (lit "[1,2]") arr12) :
    (∀ t, stripTrailingCommas t = deleteTrailingCommas t) ∧
    (∀ t, followedByCloser t = true ↔
      ∃ ws c rest, t = ws ++ c :: rest ∧ (∀ w ∈ ws, isSpace w = true) ∧ isCloser c = true) ∧
    stripTrailingCommas (lit "\x7b\"a\":1,\x7d") = lit "\x7b\"a\":1\x7d" ∧
    stripTrailingCommas (lit "[1,2,]") = lit "[1,2]" ∧
    repair E indent (lit "\x7b\"a\":1,\x7d") = .ok (objA1, E.stringify objA1 indent) ∧
    repair E indent (lit "[1,2,]") = .ok (arr12, E.stringify arr12 indent) := by
  have e1 : heuristics (lit "\x7b\"a\":1,\x7d") = lit "\x7b\"a\":1\x7d" := by decide
  have e2 : heuristics (lit "[1,2,]") = lit "[1,2]" := by decide
  refine ⟨stripTrailingCommas_eq_spec, followedByCloser_iff, by decide, by decide, ?_, ?_⟩
  · exact repair_of_reads E indent _ objA1 (by rw [e1]; exact hs1) (by rw [e1]; exact ht1)
  · exact repair_of_reads E indent _ arr12 (by rw [e2]; exact hs2) (by rw [e2]; exact ht2)

/-- C2 in the sample environment. -/
theorem C2_strip_deletes_trailing_commas_witness :
    stripTrailingCommas (lit "\x7b\"a\":1,\x7d") = lit "\x7b\"a\":1\x7d" ∧
    repair sampleEnv (.spaces 2) (lit "[1,2,]") = .ok (arr12, lit "[\n  1,\n  2\n]") :=
  have h := C2_strip_deletes_trailing_commas sampleEnv (.spaces 2) rfl
    (tolerantReads_sampleEnv _ _ rfl) rfl (tolerantReads_sampleEnv _ _ rfl)
  ⟨h.2.2.1, h.2.2.2.2.2⟩


/-! ## Claims C3 and C4: the repair as a whole -/

theorem repair_ok_text (E : Env) (indent : Indent) (t : Text) (v : JVal) (c : Text)
    (h : repair E indent t = .ok (v, c)) : c = E.stringify v indent := by
  unfold repair at h
  cases hp : parseRepaired E (heuristics t) with
  | error msg => simp [hp] at h
  | ok parsed =>
    simp only [hp, Except.ok.injEq, Prod.mk.injEq] at h
    rw [← h.2, h.1]

/-- What `fixJSON` does when the `try` block reaches `formatted` and both editors exist. -/
theorem fixJSON_of_repair_ok (E : Env) (p : Page) (input output : Editor) (v : JVal) (c : Text)
    (hi : p.inputEditor = some input) (ho : p.outputEditor = some output)
    (hne : (trim input.value).isEmpty = false)
    (hr : repair E p.indentSpace input.value = .ok (v, c)) :
    fixJSON E p = showError (lit "✓ Magic Fix Applied!")
      (clearError { p with inputEditor := some (input.setValue c),
                           outputEditor := some (output.setValue c) }) := by
  unfold fixJSON
  simp only [hi, hne, hr, ho]
  rfl

/-- A truthy value from the tolerant parser is the value parsed. -/
theorem parseRepaired_of_truthy (E : Env) (t : Text) (v : JVal)
    (h5 : tolerantParse E t = some v) (hv : v.truthy = true) : parseRepaired E t = .ok v := by
  simp [parseRepaired, h5, hv]

/-- Without a value from the tolerant parser the strict parser decides. -/
theorem parseRepaired_of_none (E : Env) (t : Text) (h5 : tolerantParse E t = none) :
    parseRepaired E t = E.jsonParse t := by
  simp [parseRepaired, h5]

/-- A falsy value from the tolerant parser is discarded: the strict parser decides. -/
theorem parseRepaired_of_falsy (E : Env) (t : Text) (v : JVal)
    (h5 : tolerantParse E t = some v) (hv : v.truthy = false) :
    parseRepaired E t = E.jsonParse t := by
  simp [parseRepaired, h5, hv]

/-- C3, as stated, fails: the repair of `",,]"` succeeds with the string
value `,]` and canonical text `",]"`, which both parsers read back as that
value; the repair of this canonical text deletes the comma inside the string
and yields the value `]` and the text `"]"`. -/
theorem C3_counterexample :
    repair sampleEnv (.spaces 2) (lit "\",,]\"") = .ok (.str (lit ",]"), lit "\",]\"") ∧
    StrictReads sampleEnv (lit "\",]\"") (.str (lit ",]")) ∧
    TolerantReads sampleEnv (lit "\",]\"") (.str (lit ",]")) ∧
    repair sampleEnv (.spaces 2) (lit "\",]\"") = .ok (.str (lit "]"), lit "\"]\"") ∧
    repair sampleEnv (.spaces 2) (lit "\",]\"") ≠ .ok (.str (lit ",]"), lit "\",]\"") ∧
    (fixJSON sampleEnv (samplePage (lit "\",,]\""))).inputEditor.map (fun ed => ed.value) =
      some (lit "\",]\"") ∧
    (fixJSON sampleEnv (fixJSON sampleEnv (samplePage (lit "\",,]\"")))).inputEditor.map
      (fun ed => ed.value) = some (lit "\"]\"") := by
  refine ⟨rfl, rfl, tolerantReads_sampleEnv _ _ rfl, rfl, ?_, by decide, by decide⟩
  have e : repair sampleEnv (.spaces 2) (lit "\",]\"") = .ok (.str (lit "]"), lit "\"]\"") := rfl
  rw [e]
  intro h
  simp only [Except.ok.injEq, Prod.mk.injEq, JVal.str.injEq] at h
  exact absurd h.2 (by decide)

/-- C3, amended: when the repair of a text succeeds with value `v` and
canonical text `c`, the heuristic rewrites leave `c` unchanged, and the
parsers read `c` back as `v`, then the repair of `c` succeeds with the same
value and the same canonical text, and a second run of `fixJSON` leaves the
page as the first one left it. -/
theorem C3_repair_idempotent_on_stable_text (E : Env) (p : Page) (input output : Editor)
    (v : JVal) (c : Text)
    (hi : p.inputEditor = some input) (ho : p.outputEditor = some output)
    (hne : (trim input.value).isEmpty = false)
    (hr : repair E p.indentSpace input.value = .ok (v, c))
    (hfix : heuristics c = c) (hs : StrictReads E c v) (ht : TolerantReads E c v) :
    repair E p.indentSpace c = .ok (v, c) ∧ fixJSON E (fixJSON E p) = fixJSON E p := by
  have hc := repair_ok_text E _ _ v c hr
  have h2 : repair E p.indentSpace c = .ok (v, c) := by
    rw [repair_of_reads E p.indentSpace c v (by rw [hfix]; exact hs) (by rw [hfix]; exact ht), hc]
  refine ⟨h2, ?_⟩
  rw [fixJSON_of_repair_ok E p input output v c hi ho hne hr]
  by_cases hblank : (trim c).isEmpty = true
  · cases hbox : p.errorMessage <;>
      simp [fixJSON, showError, clearError, hbox, Editor.setValue, hblank]
  · have hblank2 : (trim c).isEmpty = false := by simpa using hblank
    cases hbox : p.errorMessage <;>
      simp [fixJSON, showError, clearError, hbox, Editor.setValue, hblank2, h2]

/-- C3, amended, in the sample environment: `[1,2,]` is repaired to the value
`[1,2]`, and repairing the canonical text again changes nothing. -/
theorem C3_repair_idempotent_on_stable_text_witness :
    repair sampleEnv (.spaces 2) (lit "[1,2,]") = .ok (arr12, lit "[\n  1,\n  2\n]") ∧
    repair sampleEnv (.spaces 2) (lit "[\n  1,\n  2\n]") = .ok (arr12, lit "[\n  1,\n  2\n]") ∧
    fixJSON sampleEnv (fixJSON sampleEnv (samplePage (lit "[1,2,]"))) =
      fixJSON sampleEnv (samplePage (lit "[1,2,]")) :=
  have h := C3_repair_idempotent_on_stable_text sampleEnv (samplePage (lit "[1,2,]"))
    { value := lit "[1,2,]", cursor := (0, 0), focused := false }
    { value := [], cursor := (0, 0), focused := false }
    arr12 (lit "[\n  1,\n  2\n]") rfl rfl (by decide) rfl (by decide) rfl
    (tolerantReads_sampleEnv _ _ rfl)
  ⟨rfl, h.1, h.2⟩

/-- C4, evaluated where it fails: with the JSON5 library loaded, the text
`''` is read by the tolerant parser as the empty string, a falsy value, so
line 326 hands the text to the strict parser, which rejects it; `fixJSON`
reports `Could not auto-fix` and changes neither editor. -/
theorem C4_falsy_tolerant_value_rejected :
    heuristics (lit "\x27\x27") = lit "\x27\x27" ∧
    tolerantParse sampleEnv (lit "\x27\x27") = some (.str []) ∧
    fixJSON sampleEnv (samplePage (lit "\x27\x27")) =
      showError (lit "Could not auto-fix: Unexpected token \x27 in JSON at position 0")
        (samplePage (lit "\x27\x27")) :=
  ⟨by decide, rfl, rfl⟩

/-! ## Claims C6, C7 and C8: the position resolver -/

/-- The position after the loop has run over the first `n` code units. -/
theorem scan_eq (text : Text) (n : Nat) (hn : n ≤ text.length) :
    (List.range n).foldl (advance text) { line := 1, column := 1 } =
      { line := 1 + (text.take n).count cNewline,
        column := 1 + ((text.take n).reverse.takeWhile (· != cNewline)).length } := by
  induction n with
  | zero => simp
  | succ n ih =>
    have hlt : n < text.length := hn
    rw [List.range_succ, List.foldl_append, ih (Nat.le_of_lt hlt), List.take_succ,
      List.getElem?_eq_getElem hlt]
    simp only [List.foldl_cons, List.foldl_nil, advance, List.getElem?_eq_getElem hlt,
      Option.toList_some, List.reverse_append, List.reverse_cons, List.reverse_nil,
      List.nil_append, List.singleton_append, List.count_append, Option.some.injEq]
    by_cases hc : text[n] = cNewline
    · simp [hc]
      omega
    · have hb : (text[n] != cNewline) = true := by simpa using hc
      have hcount : List.count cNewline [text[n]] = 0 := by
        simp [List.count_singleton, hc]
      simp only [hc, if_false, List.takeWhile_cons, hb, if_true, List.length_cons, hcount]
      simp
      omega

theorem getLineColumn_inside (text : Text) (offset : Int) (h0 : 0 ≤ offset)
    (h1 : offset < text.length) :
    getLineColumn text offset =
      (List.range offset.toNat).foldl (advance text) { line := 1, column := 1 } := by
  unfold getLineColumn
  have h2 : ¬ (offset ≥ (text.length : Int)) := by omega
  have h3 : ¬ (offset < 0) := by omega
  simp only [h2, if_false, h3]

theorem scan_pos (text : Text) (l : List Nat) (pos : Position)
    (h : 1 ≤ pos.line ∧ 1 ≤ pos.column) :
    1 ≤ (l.foldl (advance text) pos).line ∧ 1 ≤ (l.foldl (advance text) pos).column := by
  induction l generalizing pos with
  | nil => exact h
  | cons i l ih =>
    apply ih
    unfold advance
    split
    · exact ⟨by simp, by simp⟩
    · exact ⟨h.1, by simp⟩

theorem takeWhile_reverse_segment (pre seg : Text) (h : cNewline ∉ seg) :
    (pre ++ cNewline :: seg).reverse.takeWhile (· != cNewline) = seg.reverse := by
  have hall : ∀ x ∈ seg.reverse, (x != cNewline) = true := by
    intro x hx
    have hx2 : x ∈ seg := List.mem_reverse.mp hx
    simp only [bne_iff_ne, ne_eq]
    rintro rfl
    exact h hx2
  rw [List.reverse_append, List.reverse_cons, List.append_assoc, List.takeWhile_append_of_pos hall]
  simp [List.takeWhile_cons]

theorem takeWhile_reverse_all (seg : Text) (h : cNewline ∉ seg) :
    seg.reverse.takeWhile (· != cNewline) = seg.reverse := by
  rw [List.takeWhile_eq_self_iff]
  intro x hx
  have hx2 : x ∈ seg := List.mem_reverse.mp hx
  simp only [bne_iff_ne, ne_eq]
  rintro rfl
  exact h hx2

/-- C6: for an offset inside the text, the line is one more than the number
of newlines before the offset; the column is one more than the offset when no
newline precedes it, and otherwise one more than the number of code units
between the last newline before the offset and the offset; `"a\nb"` at offset
2 gives line 2, column 1. -/
theorem C6_getLineColumn_counts (text : Text) (offset : Int) (h0 : 0 ≤ offset)
    (h1 : offset < text.length) :
    (getLineColumn text offset).line = 1 + (text.take offset.toNat).count cNewline ∧
    (cNewline ∉ text.take offset.toNat →
      (getLineColumn text offset).column = 1 + offset.toNat) ∧
    (∀ pre seg, text.take offset.toNat = pre ++ cNewline :: seg → cNewline ∉ seg →
      (getLineColumn text offset).column = 1 + seg.length) ∧
    getLineColumn (lit "a\nb") 2 = { line := 2, column := 1 } := by
  have hn : offset.toNat ≤ text.length := by omega
  rw [getLineColumn_inside text offset h0 h1, scan_eq text _ hn]
  refine ⟨rfl, ?_, ?_, by decide⟩
  · intro hno
    simp only [takeWhile_reverse_all _ hno, List.length_reverse, List.length_take]
    omega
  · intro pre seg he hno
    simp only [he, takeWhile_reverse_segment pre seg hno, List.length_reverse]

/-- C6 at `"a\nb"`, offset 2: one newline precedes, nothing follows it. -/
theorem C6_getLineColumn_counts_witness :
    (getLineColumn (lit "a\nb") 2).line = 1 + ((lit "a\nb").take 2).count cNewline ∧
    getLineColumn (lit "a\nb") 2 = { line := 2, column := 1 } :=
  have h := C6_getLineColumn_counts (lit "a\nb") 2 (by decide) (by decide)
  ⟨h.1, h.2.2.2⟩

/-- C7: whatever the text and the offset (in bounds or not), line and column
are at least 1; at offset 0 the position is line 1, column 1 for every text,
the empty text included. -/
theorem C7_getLineColumn_positive (text : Text) (offset : Int) :
    1 ≤ (getLineColumn text offset).line ∧ 1 ≤ (getLineColumn text offset).column ∧
    getLineColumn text 0 = { line := 1, column := 1 } ∧
    getLineColumn [] 0 = { line := 1, column := 1 } := by
  have hpos : ∀ index : Int, 1 ≤ (getLineColumn text index).line ∧
      1 ≤ (getLineColumn text index).column := by
    intro index
    have key : ∀ j : Int, 1 ≤ (if j < 0 then ({ line := 1, column := 1 } : Position)
        else (List.range j.toNat).foldl (advance text) { line := 1, column := 1 }).line ∧
        1 ≤ (if j < 0 then ({ line := 1, column := 1 } : Position)
        else (List.range j.toNat).foldl (advance text) { line := 1, column := 1 }).column := by
      intro j
      split
      · exact ⟨le_refl _, le_refl _⟩
      · exact scan_pos text _ _ ⟨le_refl _, le_refl _⟩
    exact key _
  refine ⟨(hpos offset).1, (hpos offset).2, ?_, rfl⟩
  unfold getLineColumn
  by_cases h : (0 : Int) ≥ (text.length : Int)
  · have h2 : (text.length : Int) - 1 < 0 := by omega
    simp only [h, if_true, h2]
  · simp [h]

/-- C8: an offset at or past the end of the text gives the position of the
last offset `length - 1`; a negative offset, and every offset on the empty
text, gives line 1, column 1. The function is total. -/
theorem C8_getLineColumn_clamps (text : Text) (offset : Int) :
    ((text.length : Int) ≤ offset →
      getLineColumn text offset = getLineColumn text ((text.length : Int) - 1)) ∧
    (offset < 0 → getLineColumn text offset = { line := 1, column := 1 }) ∧
    getLineColumn [] offset = { line := 1, column := 1 } := by
  refine ⟨?_, ?_, ?_⟩
  · intro h
    unfold getLineColumn
    have h1 : offset ≥ (text.length : Int) := h
    have h2 : ¬ ((text.length : Int) - 1 ≥ (text.length : Int)) := by omega
    simp only [h1, if_true, h2, if_false]
  · intro h
    unfold getLineColumn
    have h1 : ¬ (offset ≥ (text.length : Int)) := by omega
    simp only [h1, if_false, h, if_true]
  · unfold getLineColumn
    simp only [List.length_nil]
    split <;> split <;> first | rfl | (exfalso; omega)

/-- C8 at `"a\nb"`: offset 7 resolves like offset 2, offset -3 gives line 1, column 1. -/
theorem C8_getLineColumn_clamps_witness :
    getLineColumn (lit "a\nb") 7 = getLineColumn (lit "a\nb") 2 ∧
    getLineColumn (lit "a\nb") (-3) = { line := 1, column := 1 } :=
  ⟨(C8_getLineColumn_clamps (lit "a\nb") 7).1 (by decide),
   (C8_getLineColumn_clamps (lit "a\nb") (-3)).2.1 (by decide)⟩


/-! ## Claims C9 and C10: the error diagnoser -/

theorem includes_iff (s sub : Text) : includes s sub = true ↔ sub <:+: s := by
  induction s with
  | nil => simp [includes, List.isEmpty_iff]
  | cons c cs ih =>
    rw [includes, Bool.or_eq_true, ih, List.infix_cons_iff, List.isPrefixOf_iff_prefix]

theorem afterLiteral_some (pat t rest : Text) (hp : ∀ x ∈ pat, ¬ (65 ≤ x ∧ x ≤ 90))
    (h : afterLiteral pat t = some rest) :
    ∃ word, t = word ++ rest ∧ word.map toLowerAscii = pat := by
  induction pat generalizing t with
  | nil =>
    simp only [afterLiteral, Option.some.injEq] at h
    exact ⟨[], by simp [h], rfl⟩
  | cons a pat ih =>
    cases t with
    | nil => simp [afterLiteral] at h
    | cons c cs =>
      simp only [afterLiteral] at h
      by_cases hm : sameIgnoringCase a c = true
      · rw [if_pos hm] at h
        obtain ⟨word, hw, hl⟩ := ih cs (fun x hx => hp x (List.mem_cons_of_mem _ hx)) h
        refine ⟨c :: word, by simp [hw], ?_⟩
        have ha := hp a (List.mem_cons_self _ _)
        have hc : toLowerAscii c = a := by
          simp only [sameIgnoringCase, Bool.or_eq_true, beq_iff_eq, Bool.and_eq_true,
            decide_eq_true_eq] at hm
          unfold toLowerAscii
          rcases hm with hm | hm
          · subst hm; rw [if_neg ha]
          · have : 65 ≤ c ∧ c ≤ 90 := by omega
            rw [if_pos this]; exact hm.2
        simp [hc, hl]
      · rw [if_neg hm] at h
        exact absurd h (by simp)

theorem atPositionHere_some (t digits : Text) (h : atPositionHere t = some digits) :
    ∃ word d rest, t = word ++ d :: rest ∧
      word.map toLowerAscii = lit "at position " ∧ isDigit d = true := by
  unfold atPositionHere at h
  cases ha : afterLiteral (lit "at position ") t with
  | none => simp [ha] at h
  | some rest =>
    obtain ⟨word, hw, hl⟩ := afterLiteral_some _ t rest (by decide) ha
    cases rest with
    | nil => simp [ha] at h
    | cons d rest =>
      by_cases hd : isDigit d = true
      · exact ⟨word, d, rest, hw, hl, hd⟩
      · simp [ha, List.takeWhile_cons, hd] at h

theorem posMatch_none_of_not_embeds (msg : Text) (h : ¬ EmbedsOffset msg) :
    posMatch msg = none := by
  induction msg with
  | nil => rfl
  | cons c cs ih =>
    unfold posMatch
    cases ha : atPositionHere (c :: cs) with
    | some digits =>
      obtain ⟨word, d, rest, hw, hl, hd⟩ := atPositionHere_some _ _ ha
      exact absurd ⟨[], word, d, rest, by simpa using hw, hl, hd⟩ h
    | none =>
      simp only
      apply ih
      rintro ⟨pre, word, d, rest, hw, hl, hd⟩
      exact h ⟨c :: pre, word, d, rest, by simp [hw], hl, hd⟩

theorem replaceFirst_of_posMatch_none (msg : Text) (h : posMatch msg = none) :
    replaceFirst atPosition msg = msg := by
  induction msg with
  | nil => rfl
  | cons c cs ih =>
    unfold posMatch at h
    cases ha : atPositionHere (c :: cs) with
    | some digits => simp [ha] at h
    | none =>
      simp only [ha] at h
      simp [replaceFirst, atPosition, ha, ih h]

theorem afterLiteral_of_map (word rest : Text) :
    afterLiteral (word.map toLowerAscii) (word ++ rest) = some rest := by
  induction word with
  | nil => rfl
  | cons c word ih =>
    have hm : sameIgnoringCase (toLowerAscii c) c = true := by
      unfold sameIgnoringCase toLowerAscii
      by_cases hc : 65 ≤ c ∧ c ≤ 90
      · have h1 : (97 ≤ c + 32) ∧ (c + 32 ≤ 122) := by omega
        simp [hc, h1.1, h1.2]
      · simp [hc]
    rw [List.map_cons, List.cons_append, afterLiteral, if_pos hm]
    exact ih

theorem posMatch_some_of_embeds (msg : Text) (h : EmbedsOffset msg) :
    ∃ digits, posMatch msg = some digits := by
  obtain ⟨pre, word, d, rest, hw, hl, hd⟩ := h
  subst hw
  induction pre with
  | nil =>
    cases word with
    | nil => exact absurd hl (by decide)
    | cons c word =>
      have ha : atPositionHere ((c :: word) ++ d :: rest) =
          some (d :: rest.takeWhile isDigit) := by
        unfold atPositionHere
        rw [← hl, afterLiteral_of_map]
        simp [List.takeWhile_cons, hd]
      refine ⟨d :: rest.takeWhile isDigit, ?_⟩
      simp only [List.nil_append] at ha ⊢
      simp only [List.cons_append] at ha ⊢
      rw [posMatch, ha]
  | cons x pre ih =>
    obtain ⟨digits, hdig⟩ := ih
    simp only [List.cons_append, List.append_assoc] at hdig ⊢
    rw [posMatch]
    cases ha : atPositionHere (x :: (pre ++ (word ++ d :: rest))) with
    | some ds => exact ⟨ds, rfl⟩
    | none => exact ⟨digits, hdig⟩

/-- C9, evaluated where it fails: on the raw message
`Unexpected token } in JSON at position 5` and the text `{"a":1,}` the
offset branch returns before the friendly pass; the notice carries line 1,
column 6 and the raw message without its offset phrase, and does not mention
a trailing comma. -/
theorem C9_offset_branch_skips_friendly :
    (handleError
        { name := lit "SyntaxError", message := lit "Unexpected token \x7d in JSON at position 5" }
        (samplePage (lit "\x7b\"a\":1,\x7d"))).errorMessage.map (fun box => box.textContent) =
      some (lit "Error at Line 1, Column 6: Unexpected token \x7d in JSON") ∧
    includes (lit "Error at Line 1, Column 6: Unexpected token \x7d in JSON")
      (lit "trailing comma") = false ∧
    includes (friendly (lit "Unexpected token \x7d in JSON")) (lit "trailing comma") = true := by
  decide

/-- C10: for a raw message that embeds no `at position <digits>` offset,
`handleError` is total and shows exactly `Error: ` followed by the
brace explanation when the trimmed message contains `Unexpected token }`,
else the bracket explanation for `Unexpected token ]`, else the comma
explanation for `Unexpected token ,`, else the premature-end explanation for
`Unexpected end of JSON input`, else the trimmed message itself; nothing else
on the page changes. -/
theorem C10_friendly_without_offset (error : JsError) (p : Page) (box : ErrorBox)
    (hbox : p.errorMessage = some box) (h : ¬ EmbedsOffset (errorString error)) :
    handleError error p =
      { p with errorMessage := some { box with
          hidden := false
          textContent := lit "Error: " ++
            (if lit "Unexpected token \x7d" <:+: trim (errorString error) then
              lit "It looks like you have an extra closing brace \x27\x7d\x27 or a trailing comma before it."
            else if lit "Unexpected token ]" <:+: trim (errorString error) then
              lit "It looks like you have an extra closing bracket \x27]\x27 or a trailing comma before it."
            else if lit "Unexpected token ," <:+: trim (errorString error) then
              lit "You might have a misplaced comma \x27,\x27 or a missing value."
            else if lit "Unexpected end of JSON input" <:+: trim (errorString error) then
              lit "The JSON string ends prematurely. Check for missing closing braces \x27\x7d\x27 or brackets \x27]\x27."
            else trim (errorString error)) } } := by
  have hn := posMatch_none_of_not_embeds _ h
  unfold handleError
  simp only [hn, replaceFirst_of_posMatch_none _ hn, showError, hbox, friendly, includes_iff]

/-- C10 on the message `  Unexpected end of JSON input ` (no offset in it):
the premature-end explanation is shown after `Error: `. -/
theorem C10_friendly_without_offset_witness :
    (handleError { name := lit "SyntaxError", message := lit "  Unexpected end of JSON input " }
        (samplePage (lit "[1,"))).errorMessage.map (fun box => box.textContent) =
      some (lit "Error: The JSON string ends prematurely. Check for missing closing braces \x27\x7d\x27 or brackets \x27]\x27.") := by
  have hno : ¬ EmbedsOffset (errorString
      { name := lit "SyntaxError", message := lit "  Unexpected end of JSON input " }) := by
    intro he
    obtain ⟨digits, hd⟩ := posMatch_some_of_embeds _ he
    have hn : posMatch (errorString
      { name := lit "SyntaxError", message := lit "  Unexpected end of JSON input " }) = none := by
      decide
    rw [hn] at hd
    exact absurd hd (by simp)
  rw [C10_friendly_without_offset _ (samplePage (lit "[1,")) _ rfl hno]
  decide

/-! ## Claim C5: quote normalization -/

theorem aposGroup_append (g rest : Text) (hg : cApos ∉ g) :
    aposGroup (g ++ cApos :: rest) = some (g, rest) := by
  induction g with
  | nil => simp [aposGroup]
  | cons c g ih =>
    have hc : (c == cApos) = false := by
      have : c ≠ cApos := fun h => hg (by simp [h])
      simpa using this
    have hg2 : cApos ∉ g := fun h => hg (List.mem_cons_of_mem _ h)
    simp [aposGroup, hc, ih hg2]

theorem quotedKey_of_ne (c : Nat) (cs : Text) (h : c ≠ cApos) : quotedKey (c :: cs) = none := by
  have hc : (c == cApos) = false := by simpa using h
  simp [quotedKey, hc]

theorem replaceAll_quotedKey_run (l rest : Text) (h : cApos ∉ l) :
    replaceAll quotedKey 0 (l ++ rest) = l ++ replaceAll quotedKey 0 rest := by
  induction l with
  | nil => rfl
  | cons c l ih =>
    have hc : c ≠ cApos := fun e => h (by simp [e])
    have hl : cApos ∉ l := fun e => h (List.mem_cons_of_mem _ e)
    rw [List.cons_append, replaceAll_cons_none _ _ _ (quotedKey_of_ne c _ hc), ih hl]
    rfl

theorem quotedValue_of_third_ne (c d e : Nat) (cs : Text) (h : e ≠ cApos) :
    quotedValue (c :: d :: e :: cs) = none := by
  have he : (e == cApos) = false := by simpa using h
  simp [quotedValue, he]

theorem replaceAll_quotedValue_run (l : Text) (y z : Nat) (rest : Text) (h : cApos ∉ l)
    (hy : y ≠ cApos) (hz : z ≠ cApos) :
    replaceAll quotedValue 0 (l ++ y :: z :: rest) =
      l ++ replaceAll quotedValue 0 (y :: z :: rest) := by
  induction l with
  | nil => rfl
  | cons c l ih =>
    have hl : cApos ∉ l := fun e => h (List.mem_cons_of_mem _ e)
    have hnone : quotedValue (c :: (l ++ y :: z :: rest)) = none := by
      cases l with
      | nil => exact quotedValue_of_third_ne c y z rest hz
      | cons d l =>
        cases l with
        | nil => exact quotedValue_of_third_ne c d y _ hy
        | cons e l =>
          exact quotedValue_of_third_ne c d e _ (fun he => h (by simp [he]))
    rw [List.cons_append, replaceAll_cons_none _ _ _ hnone, ih hl]
    rfl

/-- The first replace on `{'k': 'v'}`: only the key is rewritten. -/
theorem quotedKey_pass (k v : Text) (hk : cApos ∉ k) (hv : cApos ∉ v) :
    replaceAll quotedKey 0
        (123 :: cApos :: (k ++ cApos :: cColon :: cSpace :: cApos :: (v ++ [cApos, 125]))) =
      123 :: cQuote :: (k ++ cQuote :: cColon :: cSpace :: cApos :: (v ++ [cApos, 125])) := by
  have h1 : quotedKey (cApos :: (k ++ cApos :: cColon :: cSpace :: cApos :: (v ++ [cApos, 125])))
      = some (cQuote :: k ++ [cQuote, cColon], (k.length + 2) + 1) := by
    simp [quotedKey, aposGroup_append k _ hk]
  have h2 : quotedKey (cApos :: (v ++ [cApos, 125])) = none := by
    have : v ++ [cApos, 125] = v ++ cApos :: [125] := rfl
    rw [quotedKey, this, aposGroup_append v _ hv]
    simp [cColon]
  have h3 : replaceAll quotedKey 0 [cApos, 125] = [cApos, 125] := by decide
  have hdrop : (k ++ cApos :: cColon :: cSpace :: cApos :: (v ++ [cApos, 125])).drop
      (k.length + 2) = cSpace :: cApos :: (v ++ [cApos, 125]) := by
    rw [List.drop_append_eq_append_drop]
    simp
  rw [replaceAll_cons_none _ _ _ (quotedKey_of_ne 123 _ (by decide)),
    replaceAll_cons_some _ _ _ _ _ h1, hdrop,
    replaceAll_cons_none _ _ _ (quotedKey_of_ne cSpace _ (by decide)),
    replaceAll_cons_none _ _ _ h2, replaceAll_quotedKey_run v _ hv, h3]
  simp

/-- The second replace on the result of the first: only the value is rewritten. -/
theorem quotedValue_pass (k v : Text) (hk : cApos ∉ k) (hv : cApos ∉ v) :
    replaceAll quotedValue 0
        (123 :: cQuote :: (k ++ cQuote :: cColon :: cSpace :: cApos :: (v ++ [cApos, 125]))) =
      123 :: cQuote :: (k ++ cQuote :: cColon :: cSpace :: cQuote :: (v ++ [cQuote, 125])) := by
  have hl : cApos ∉ (123 :: cQuote :: k) := by
    intro h
    rcases List.mem_cons.mp h with h | h
    · exact absurd h (by decide)
    · rcases List.mem_cons.mp h with h | h
      · exact absurd h (by decide)
      · exact hk h
  have h1 : quotedValue (cQuote :: cColon :: cSpace :: cApos :: (v ++ [cApos, 125])) = none :=
    quotedValue_of_third_ne _ _ _ _ (by decide)
  have h2 : quotedValue (cColon :: cSpace :: cApos :: (v ++ [cApos, 125])) =
      some (cColon :: cSpace :: cQuote :: v ++ [cQuote], (v.length + 3) + 1) := by
    have : v ++ [cApos, 125] = v ++ cApos :: [125] := rfl
    rw [quotedValue, this, aposGroup_append v _ hv]
    simp [cColon, cSpace, cApos]
  have hdrop : (cSpace :: cApos :: (v ++ [cApos, 125])).drop (v.length + 3) = [125] := by
    simp [List.drop_append_eq_append_drop]
  have h3 : replaceAll quotedValue 0 [125] = [125] := by decide
  have hsplit : 123 :: cQuote :: (k ++ cQuote :: cColon :: cSpace :: cApos :: (v ++ [cApos, 125]))
      = (123 :: cQuote :: k) ++ cQuote :: cColon :: (cSpace :: cApos :: (v ++ [cApos, 125])) := by
    simp
  rw [hsplit, replaceAll_quotedValue_run _ _ _ _ hl (by decide) (by decide),
    replaceAll_cons_none _ _ _ h1, replaceAll_cons_some _ _ _ _ _ h2, hdrop, h3]
  simp

/-- C5: for a key and a value without an apostrophe, the two
quote-normalization replaces rewrite `{'k': 'v'}` to `{"k": "v"}`; the input
`{'a': 'b'}` is rewritten to `{"a": "b"}`, and with parsers that read that
text as the value `{"a":"b"}` its repair yields this value. -/
theorem C5_quote_normalization (E : Env) (indent : Indent) (k v : Text)
    (hk : cApos ∉ k) (hv : cApos ∉ v)
    (hs : StrictReads E (lit "\x7b\"a\": \"b\"\x7d") objAB)
    (ht : TolerantReads E (lit "\x7b\"a\": \"b\"\x7d") objAB) :
    normalizeQuotes (lit "\x7b\x27" ++ k ++ lit "\x27: \x27" ++ v ++ lit "\x27\x7d") =
      lit "\x7b\"" ++ k ++ lit "\": \"" ++ v ++ lit "\"\x7d" ∧
    normalizeQuotes (lit "\x7b\x27a\x27: \x27b\x27\x7d") = lit "\x7b\"a\": \"b\"\x7d" ∧
    repair E indent (lit "\x7b\x27a\x27: \x27b\x27\x7d") = .ok (objAB, E.stringify objAB indent) := by
  have e1 : heuristics (lit "\x7b\x27a\x27: \x27b\x27\x7d") = lit "\x7b\"a\": \"b\"\x7d" := by
    decide
  refine ⟨?_, by decide, ?_⟩
  · have hin : lit "\x7b\x27" ++ k ++ lit "\x27: \x27" ++ v ++ lit "\x27\x7d" =
        123 :: cApos :: (k ++ cApos :: cColon :: cSpace :: cApos :: (v ++ [cApos, 125])) := by
      have a1 : lit "\x7b\x27" = [123, cApos] := by decide
      have a2 : lit "\x27: \x27" = [cApos, cColon, cSpace, cApos] := by decide
      have a3 : lit "\x27\x7d" = [cApos, 125] := by decide
      rw [a1, a2, a3]; simp
    have hout : lit "\x7b\"" ++ k ++ lit "\": \"" ++ v ++ lit "\"\x7d" =
        123 :: cQuote :: (k ++ cQuote :: cColon :: cSpace :: cQuote :: (v ++ [cQuote, 125])) := by
      have a1 : lit "\x7b\"" = [123, cQuote] := by decide
      have a2 : lit "\": \"" = [cQuote, cColon, cSpace, cQuote] := by decide
      have a3 : lit "\"\x7d" = [cQuote, 125] := by decide
      rw [a1, a2, a3]; simp
    rw [hin, hout, normalizeQuotes, quotedKey_pass k v hk hv, quotedValue_pass k v hk hv]
  · exact repair_of_reads E indent _ objAB (by rw [e1]; exact hs) (by rw [e1]; exact ht)

/-- C5 in the sample environment, with key `id` and value `x y`. -/
theorem C5_quote_normalization_witness :
    normalizeQuotes (lit "\x7b\x27" ++ lit "id" ++ lit "\x27: \x27" ++ lit "x y" ++ lit "\x27\x7d") =
      lit "\x7b\"" ++ lit "id" ++ lit "\": \"" ++ lit "x y" ++ lit "\"\x7d" ∧
    repair sampleEnv (.spaces 2) (lit "\x7b\x27a\x27: \x27b\x27\x7d") =
      .ok (objAB, lit "\x7b\n  \"a\": \"b\"\n\x7d") :=
  have h := C5_quote_normalization sampleEnv (.spaces 2) (lit "id") (lit "x y")
    (by decide) (by decide) rfl (tolerantReads_sampleEnv _ _ rfl)
  ⟨h.1, h.2.2⟩

/-! ## Claim C16: blank input -/

theorem dropWhile_isSpace_of_all (t : Text) (h : ∀ c ∈ t, isSpace c = true) :
    t.dropWhile isSpace = [] := by
  induction t with
  | nil => rfl
  | cons c cs ih =>
    rw [List.dropWhile_cons, if_pos (h c (List.mem_cons_self _ _))]
    exact ih (fun x hx => h x (List.mem_cons_of_mem _ hx))

theorem trim_of_all_space (t : Text) (h : ∀ c ∈ t, isSpace c = true) : trim t = [] := by
  simp [trim, dropWhile_isSpace_of_all t h]

/-- C16: when the input text is empty or made of whitespace only,
`formatJSON` and `minifyJSON` set the output editor to the empty text and
clear the error element, and `validateJSON` shows exactly `Input is empty`;
none of the three results depends on the parser or goes through
`handleError`, and the input editor keeps its text. -/
theorem C16_blank_input (E : Env) (p : Page) (input output : Editor)
    (hi : p.inputEditor = some input) (ho : p.outputEditor = some output)
    (hblank : ∀ c ∈ input.value, isSpace c = true) :
    formatJSON E p = clearError { p with outputEditor := some (output.setValue []) } ∧
    minifyJSON E p = clearError { p with outputEditor := some (output.setValue []) } ∧
    validateJSON E p = showError (lit "Input is empty") p ∧
    (formatJSON E p).inputEditor = some input ∧
    (minifyJSON E p).inputEditor = some input ∧
    (validateJSON E p).inputEditor = some input ∧
    (formatJSON E p).outputEditor = some { output with value := [] } ∧
    (minifyJSON E p).outputEditor = some { output with value := [] } ∧
    (formatJSON E p).errorMessage =
      p.errorMessage.map (fun box => { box with textContent := [], hidden := true }) ∧
    (minifyJSON E p).errorMessage =
      p.errorMessage.map (fun box => { box with textContent := [], hidden := true }) ∧
    (validateJSON E p).errorMessage =
      p.errorMessage.map (fun box =>
        { box with textContent := lit "Input is empty", hidden := false }) := by
  have ht := trim_of_all_space input.value hblank
  have hf : formatJSON E p = clearError { p with outputEditor := some (output.setValue []) } := by
    simp [formatJSON, hi, ho, ht]
  have hm : minifyJSON E p = clearError { p with outputEditor := some (output.setValue []) } := by
    simp [minifyJSON, hi, ho, ht]
  have hv : validateJSON E p = showError (lit "Input is empty") p := by
    simp [validateJSON, hi, ht]
  rw [hf, hm, hv]
  cases hbox : p.errorMessage <;>
    simp [clearError, showError, hbox, hi, Editor.setValue]

/-- C16 on the sample page holding a space, a tab and a newline. -/
theorem C16_blank_input_witness :
    formatJSON sampleEnv (samplePage (lit " \t\n")) =
      clearError { samplePage (lit " \t\n") with
        outputEditor := some { value := [], cursor := (0, 0), focused := false } } ∧
    validateJSON sampleEnv (samplePage (lit " \t\n")) =
      showError (lit "Input is empty") (samplePage (lit " \t\n")) :=
  have h := C16_blank_input sampleEnv (samplePage (lit " \t\n"))
    { value := lit " \t\n", cursor := (0, 0), focused := false }
    { value := [], cursor := (0, 0), focused := false } rfl rfl (by decide)
  ⟨h.1, h.2.2.1⟩

/-! ## Claim C14: quoting of a field -/

theorem includes_singleton (s : Text) (c : Nat) : includes s [c] = true ↔ c ∈ s := by
  induction s with
  | nil => simp [includes]
  | cons d ds ih =>
    rw [includes, Bool.or_eq_true, ih]
    simp only [List.isPrefixOf, Bool.and_eq_true, beq_iff_eq, List.mem_cons]
    constructor
    · rintro (⟨h, -⟩ | h)
      · exact Or.inl h
      · exact Or.inr h
    · rintro (h | h)
      · exact Or.inl ⟨h, trivial⟩
      · exact Or.inr h

theorem replaceAll_doubleQuote (s : Text) :
    replaceAll doubleQuote 0 s =
      s.flatMap (fun c => if c = cQuote then [cQuote, cQuote] else [c]) := by
  induction s with
  | nil => rfl
  | cons c cs ih =>
    by_cases hc : c = cQuote
    · have hm : doubleQuote (c :: cs) = some ([cQuote, cQuote], 0 + 1) := by
        simp [doubleQuote, hc]
      rw [replaceAll_cons_some _ _ _ _ _ hm, List.drop_zero, ih]
      simp [hc]
    · have hm : doubleQuote (c :: cs) = none := by
        have hb : (c == cQuote) = false := by simpa using hc
        simp [doubleQuote, hb]
      rw [replaceAll_cons_none _ _ _ hm, ih]
      simp [hc]

/-- C14: a cell whose string form contains a comma, a double quote or a
newline is emitted as a double quote, the string with every double quote
doubled, and a double quote; any other cell is emitted verbatim; every field
of a data row of `jsonToCsv` is made this way. -/
theorem C14_csv_field_quoting (host : Host) (stringVal : Text) :
    csvField stringVal =
      (if cComma ∈ stringVal ∨ cQuote ∈ stringVal ∨ cNewline ∈ stringVal then
        [cQuote] ++ stringVal.flatMap (fun c => if c = cQuote then [cQuote, cQuote] else [c])
          ++ [cQuote]
      else stringVal) ∧
    (∀ headers row, csvValues host headers row =
      headers.map (fun header => csvField (cellText host row header))) ∧
    jsonToCsv sampleHost (.arr [.obj [(lit "a", .str (lit "x\"y,z")), (lit "b", .str (lit "u v"))]])
      = .ok (lit "a,b\n\"x\"\"y,z\",u v") := by
  refine ⟨?_, fun _ _ => rfl, rfl⟩
  unfold csvField
  by_cases h : cComma ∈ stringVal ∨ cQuote ∈ stringVal ∨ cNewline ∈ stringVal
  · have hb : (includes stringVal [cComma] || includes stringVal [cQuote]
        || includes stringVal [cNewline]) = true := by
      simp only [Bool.or_eq_true, includes_singleton]
      tauto
    rw [if_pos hb, if_pos h, replaceAll_doubleQuote]
    rfl
  · have hb : ¬ ((includes stringVal [cComma] || includes stringVal [cQuote]
        || includes stringVal [cNewline]) = true) := by
      simp only [Bool.or_eq_true, includes_singleton]
      tauto
    rw [if_neg hb, if_neg h]

/-! ## Claim C15: sequences in XML -/

theorem toXmlItems_eq (host : Host) (items : List JVal) :
    toXmlItems host items = items.flatMap (fun item => toXml host item (lit "item")) := by
  induction items with
  | nil => simp [toXmlItems]
  | cons item rest ih => simp [toXmlItems, ih]

theorem toXmlEntries_append (host : Host) (before after : List (Text × JVal)) :
    toXmlEntries host (before ++ after) = toXmlEntries host before ++ toXmlEntries host after := by
  induction before with
  | nil => simp [toXmlEntries]
  | cons entry rest ih =>
    obtain ⟨key, val⟩ := entry
    simp [toXmlEntries, ih]

/-- C15, as stated, fails: for `{"k":[1,2]}` the output is the declaration
followed by `<root><item>1</item><item>2</item></root>`; the items stand
directly under `root` and no element `<k>` is written. -/
theorem C15_counterexample :
    jsonToXml sampleHost (.obj [(lit "k", arr12)]) =
      lit "<?xml version=\"1.0\" encoding=\"UTF-8\"?>\n<root><item>1</item><item>2</item></root>" ∧
    includes (jsonToXml sampleHost (.obj [(lit "k", arr12)])) (lit "<k>") = false ∧
    jsonToXml sampleHost (.obj [(lit "k", arr12)]) ≠
      lit "<?xml version=\"1.0\" encoding=\"UTF-8\"?>\n<root><k><item>1</item><item>2</item></k></root>" := by
  decide

/-- C15, amended: a mapping entry with key `k` whose value is the sequence
`[v1, ..., vn]` is serialized as the `<item>` serializations of `v1`, ...,
`vn` one after another, placed directly inside the element of the enclosing
mapping; the key `k` has no part in it and no element named `k` is opened;
the whole document starts with the fixed XML declaration. -/
theorem C15_sequence_items_unwrapped (host : Host) (key other rootName : Text)
    (items : List JVal) (before after : List (Text × JVal)) (obj : JVal) :
    toXml host (.arr items) key = items.flatMap (fun item => toXml host item (lit "item")) ∧
    toXml host (.arr items) key = toXml host (.arr items) other ∧
    toXml host (.obj (before ++ (key, .arr items) :: after)) rootName =
      lit "<" ++ rootName ++ lit ">" ++ toXmlEntries host before ++
        items.flatMap (fun item => toXml host item (lit "item")) ++
        toXmlEntries host after ++ lit "</" ++ rootName ++ lit ">" ∧
    jsonToXml host obj =
      lit "<?xml version=\"1.0\" encoding=\"UTF-8\"?>\n" ++ toXml host obj (lit "root") := by
  refine ⟨?_, ?_, ?_, rfl⟩
  · rw [toXml, toXmlItems_eq]
  · rw [toXml, toXml]
  · rw [toXml, toXmlEntries_append, toXmlEntries, toXml, toXmlItems_eq]
    simp [openTag, closeTag]

/-! ## Claims C11, C12 and C13: CSV conversion -/

theorem flattenItems_eq (items : List JVal) (i : Nat) (pre : Text) (res : PlainObject) :
    flattenItems items i pre res = flattenEntries (indexedFrom i items) pre res := by
  induction items generalizing i res with
  | nil => simp [flattenItems, indexedFrom, flattenEntries]
  | cons val rest ih =>
    rw [flattenItems, indexedFrom, flattenEntries]
    cases val.prim? with
    | none => exact ih _ _
    | some leaf => exact ih _ _

theorem flattenEntries_append (before after : List (Text × JVal)) (pre : Text)
    (res : PlainObject) :
    flattenEntries (before ++ after) pre res =
      flattenEntries after pre (flattenEntries before pre res) := by
  induction before generalizing res with
  | nil => simp [flattenEntries]
  | cons entry rest ih =>
    obtain ⟨key, val⟩ := entry
    rw [List.cons_append, flattenEntries, flattenEntries]
    cases val.prim? with
    | none => exact ih _
    | some leaf => exact ih _

theorem flatten_arr_eq_obj (items : List JVal) (pre : Text) (res : PlainObject) :
    flatten (.arr items) pre res = flatten (.obj (indexedFrom 0 items)) pre res := by
  rw [flatten, flatten, flattenItems_eq]

theorem prim?_toJVal (leaf : Prim) : leaf.toJVal.prim? = some leaf := by
  cases leaf <;> rfl

theorem flattenItems_leaves (leaves : List Prim) (i : Nat) (pre : Text) (res : PlainObject) :
    flattenItems (leaves.map Prim.toJVal) i pre res = assignIndexed leaves i pre res := by
  induction leaves generalizing i res with
  | nil => simp [flattenItems, assignIndexed]
  | cons leaf rest ih =>
    rw [List.map_cons, flattenItems, assignIndexed]
    simp only [prim?_toJVal]
    exact ih _ _

/-- C11, as stated, fails in both directions: the empty sequence, all of
whose elements are mappings, is rejected; the sequences `[null]`, `[[1,2]]`
and `[{"a":1}, 1]` hold an element that is no mapping and are converted. -/
theorem C11_counterexample :
    jsonToCsv sampleHost (.arr []) = .error csvShapeMessage ∧
    jsonToCsv sampleHost (.arr [.null]) = .ok (lit "\n") ∧
    jsonToCsv sampleHost (.arr [arr12]) = .ok (lit "0,1\n1,2") ∧
    jsonToCsv sampleHost (.arr [objA1, .num (JNum.ofNat 1)]) = .ok (lit "a\n1\n") :=
  ⟨rfl, rfl, rfl, rfl⟩

/-- C11, amended: `jsonToCsv` is total; it fails with the error
`CSV conversion requires a JSON array of objects` on every value that is not
a sequence, on the empty sequence, and on every sequence whose first element
is a boolean, a number or a string; it succeeds on every non-empty sequence
all of whose elements are mappings. -/
theorem C11_jsonToCsv_shape (host : Host) :
    (∀ v, (∀ items, v ≠ .arr items) →
      jsonToCsv host v = .error (lit "CSV conversion requires a JSON array of objects")) ∧
    jsonToCsv host (.arr []) = .error (lit "CSV conversion requires a JSON array of objects") ∧
    (∀ first rest, ((∃ b, first = .bool b) ∨ (∃ n, first = .num n) ∨ (∃ s, first = .str s)) →
      jsonToCsv host (.arr (first :: rest)) =
        .error (lit "CSV conversion requires a JSON array of objects")) ∧
    (∀ first rest, (∀ v ∈ first :: rest, ∃ entries, v = .obj entries) →
      ∃ out, jsonToCsv host (.arr (first :: rest)) = .ok out) := by
  refine ⟨?_, rfl, ?_, ?_⟩
  · intro v hv
    cases v with
    | arr items => exact absurd rfl (hv items)
    | null => rfl
    | bool b => rfl
    | num n => rfl
    | str s => rfl
    | obj entries => rfl
  · rintro first rest (⟨b, rfl⟩ | ⟨n, rfl⟩ | ⟨s, rfl⟩) <;> rfl
  · intro first rest h
    obtain ⟨entries, rfl⟩ := h first (List.mem_cons_self _ _)
    exact ⟨_, rfl⟩

/-- C11, amended, on samples: a bare object and a sequence that starts with
a number are rejected, a sequence of two mappings is converted. -/
theorem C11_jsonToCsv_shape_witness :
    jsonToCsv sampleHost objA1 = .error (lit "CSV conversion requires a JSON array of objects") ∧
    jsonToCsv sampleHost (.arr [.num (JNum.ofNat 1), objA1]) =
      .error (lit "CSV conversion requires a JSON array of objects") ∧
    (∃ out, jsonToCsv sampleHost (.arr [objA1, objAB]) = .ok out) :=
  ⟨(C11_jsonToCsv_shape sampleHost).1 objA1 (fun items h => by cases h),
   (C11_jsonToCsv_shape sampleHost).2.2.1 _ _ (Or.inr (Or.inl ⟨_, rfl⟩)),
   (C11_jsonToCsv_shape sampleHost).2.2.2 objA1 [objAB] (by
      intro v hv
      simp only [List.mem_cons, List.mem_singleton, List.not_mem_nil, or_false] at hv
      rcases hv with rfl | rfl
      · exact ⟨_, rfl⟩
      · exact ⟨_, rfl⟩)⟩

/-- C12, as stated, fails: for `[{"a":[1,2]}]` the columns are `a.0` and
`a.1` with the cells `1` and `2`, not one column `a` holding `1,2`; and an
empty nested sequence yields no column at all. -/
theorem C12_counterexample :
    jsonToCsv sampleHost (.arr [.obj [(lit "a", arr12)]]) = .ok (lit "a.0,a.1\n1,2") ∧
    jsonToCsv sampleHost (.arr [.obj [(lit "a", arr12)]]) ≠ .ok (lit "a\n\"1,2\"") ∧
    jsonToCsv sampleHost (.arr [.obj [(lit "a", .arr []), (lit "b", .num (JNum.ofNat 1))]]) =
      .ok (lit "b\n1") := by
  refine ⟨rfl, ?_, rfl⟩
  have e : jsonToCsv sampleHost (.arr [.obj [(lit "a", arr12)]]) = .ok (lit "a.0,a.1\n1,2") := rfl
  rw [e]
  intro h
  simp only [Except.ok.injEq] at h
  exact absurd h (by decide)

/-- C12, amended: `jsonToCsv` expands a nested sequence found at key `p`
exactly as it expands the nested mapping that holds the items of the
sequence under the keys `0`, `1`, ...: the items contribute the columns
`p.0`, `p.1`, ... (expanded further when they are mappings or sequences), no
column named `p` is made for the sequence, and an empty sequence contributes
no column; a sequence of primitives fills one cell per item, under its index. -/
theorem C12_nested_sequence_expanded (host : Host) (key pre : Text) (items : List JVal)
    (res : PlainObject) (before after : List (Text × JVal)) (rowsBefore rowsAfter : List JVal) :
    flatten (.arr items) pre res = flatten (.obj (indexedFrom 0 items)) pre res ∧
    flattenEntries (before ++ (key, .arr items) :: after) pre res =
      flattenEntries (before ++ (key, .obj (indexedFrom 0 items)) :: after) pre res ∧
    flattenEntries ((key, .arr []) :: after) pre res = flattenEntries after pre res ∧
    (∀ leaves : List Prim,
      flatten (.arr (leaves.map Prim.toJVal)) pre res = assignIndexed leaves 0 pre res) ∧
    jsonToCsv host
        (.arr (rowsBefore ++ .obj (before ++ (key, .arr items) :: after) :: rowsAfter)) =
      jsonToCsv host
        (.arr (rowsBefore ++ .obj (before ++ (key, .obj (indexedFrom 0 items)) :: after)
          :: rowsAfter)) ∧
    jsonToCsv sampleHost (.arr [.obj [(lit "a", arr12)]]) = .ok (lit "a.0,a.1\n1,2") := by
  have hent : ∀ (pre : Text) (res : PlainObject),
      flattenEntries (before ++ (key, .arr items) :: after) pre res =
      flattenEntries (before ++ (key, .obj (indexedFrom 0 items)) :: after) pre res := by
    intro pre res
    rw [flattenEntries_append, flattenEntries_append, flattenEntries, flattenEntries]
    simp only [JVal.prim?]
    rw [flatten_arr_eq_obj]
  refine ⟨flatten_arr_eq_obj items pre res, hent pre res, ?_, ?_, ?_, rfl⟩
  · rw [flattenEntries]
    simp only [JVal.prim?]
    rw [flatten, flattenItems]
  · intro leaves
    rw [flatten, flattenItems_leaves]
  · have hrow : flatten (.obj (before ++ (key, .arr items) :: after)) [] PlainObject.empty =
        flatten (.obj (before ++ (key, .obj (indexedFrom 0 items)) :: after)) []
          PlainObject.empty := by
      rw [flatten, flatten, hent]
    have hrows : flatRows (rowsBefore ++ .obj (before ++ (key, .arr items) :: after)
          :: rowsAfter) =
        flatRows (rowsBefore ++ .obj (before ++ (key, .obj (indexedFrom 0 items)) :: after)
          :: rowsAfter) := by
      simp only [flatRows, List.map_append, List.map_cons, hrow]
    cases rowsBefore with
    | nil =>
      simp only [List.nil_append] at hrows ⊢
      simp only [jsonToCsv, isObjectType, hrows]
    | cons first rest =>
      simp only [List.cons_append] at hrows ⊢
      simp only [jsonToCsv, hrows]

theorem insertionOrder_mem (seen keys : List Text) (key : Text) :
    key ∈ insertionOrder seen keys ↔ key ∈ seen ∨ key ∈ keys := by
  induction keys generalizing seen with
  | nil => simp [insertionOrder]
  | cons k rest ih =>
    rw [insertionOrder]
    by_cases hk : seen.contains k = true
    · rw [if_pos hk, ih]
      have hmem : k ∈ seen := by simpa using hk
      constructor
      · rintro (h | h)
        · exact Or.inl h
        · exact Or.inr (List.mem_cons_of_mem _ h)
      · rintro (h | h)
        · exact Or.inl h
        · rcases List.mem_cons.mp h with rfl | h
          · exact Or.inl hmem
          · exact Or.inr h
    · rw [if_neg hk, ih]
      simp only [List.mem_append, List.mem_singleton, List.mem_cons]
      tauto

theorem insertionOrder_nodup (seen keys : List Text) (h : seen.Nodup) :
    (insertionOrder seen keys).Nodup := by
  induction keys generalizing seen with
  | nil => simpa [insertionOrder] using h
  | cons k rest ih =>
    rw [insertionOrder]
    by_cases hk : seen.contains k = true
    · rw [if_pos hk]; exact ih seen h
    · rw [if_neg hk]
      apply ih
      have hmem : k ∉ seen := by simpa using hk
      rw [List.nodup_append]
      refine ⟨h, List.nodup_singleton k, ?_⟩
      intro x hx hx2
      rw [List.mem_singleton] at hx2
      subst hx2
      exact hmem hx

/-- The header keys are exactly the keys of the flattened rows, each once. -/
theorem csvHeaders_spec (flatData : List PlainObject) :
    (csvHeaders flatData).Nodup ∧
    ∀ key, key ∈ csvHeaders flatData ↔ ∃ row ∈ flatData, key ∈ row.keys := by
  refine ⟨insertionOrder_nodup _ _ List.nodup_nil, fun key => ?_⟩
  rw [csvHeaders, insertionOrder_mem]
  simp [List.mem_flatMap]

/-- A data row has one field per header key. -/
theorem csvValues_length (host : Host) (headers : List Text) (row : PlainObject) :
    (csvValues host headers row).length = headers.length := by
  simp [csvValues]

/-- There is one data row per element. -/
theorem csvRows_length (host : Host) (items : List JVal) :
    (csvRows host (flatRows items)).length = items.length + 1 := by
  simp [csvRows, flatRows]

/-- The field is empty when the row has no own property under the header and
inherits none: its prototype is gone or `Object.prototype` does not define
the key. -/
theorem csvField_missing (host : Host) (row : PlainObject) (header : Text)
    (hown : ∀ q ∈ row.props, q.1 ≠ header)
    (hinh : row.inheritsObject = false ∨ host.inheritedText header = none) :
    csvField (cellText host row header) = [] := by
  have hfind : row.props.find? (fun q => q.1 == header) = none := by
    rw [List.find?_eq_none]
    intro q hq
    simpa using hown q hq
  have hget : row.get host header = none := by
    unfold PlainObject.get
    rw [hfind]
    rcases hinh with h | h
    · simp [h]
    · simp [h]
  simp [cellText, hget, csvField, includes]

/-- The field of a row that has an own property under the header is made
from the string form of its value. -/
theorem cellText_own (host : Host) (row : PlainObject) (header : Text) (q : Text × Prim)
    (hfind : row.props.find? (fun q => q.1 == header) = some q) :
    cellText host row header = q.2.toText host := by
  simp [cellText, PlainObject.get, hfind]

/-- C13, evaluated where it fails: the example of the claim gives the lines
`a,b.c`, `1,2` and `3,`; but on `[{"toString":1},{"a":2}]` the second
element, which lacks the key `toString`, gets under that header the text of
the function it inherits from `Object.prototype` instead of an empty field. -/
theorem C13_inherited_cell_not_empty :
    jsonToCsv sampleHost
        (.arr [.obj [(lit "a", .num (JNum.ofNat 1)), (lit "b", .obj [(lit "c", .num (JNum.ofNat 2))])],
          .obj [(lit "a", .num (JNum.ofNat 3))]]) = .ok (lit "a,b.c\n1,2\n3,") ∧
    jsonToCsv sampleHost
        (.arr [.obj [(lit "toString", .num (JNum.ofNat 1))], .obj [(lit "a", .num (JNum.ofNat 2))]]) =
      .ok (lit "toString,a\n1,\nfunction toString() \x7b [native code] \x7d,2") :=
  ⟨rfl, rfl⟩

end JsonEase


